import Mathlib

/-!
Verification of the response-normalization and AI-text-reformatting core of an
ITSM ticketing front-end. The Python sources (`utils.py`, `admin_app.py`) are
shallowly embedded: dynamic Python values become the inductive type `PyVal`,
dictionaries become ordered key/value sequences (`PyDict`), functions that can
raise return `Except`, and the relevant pieces of the standard library
(`json.loads`, `ast.literal_eval`, `datetime.fromisoformat`, `str` methods,
the one regular expression split used by the reformatter) are modelled
explicitly on lists of characters.
-/

namespace ITSM

/- ============================================================
   Python value model
   ============================================================ -/

mutual
/-- A dynamic Python value, restricted to the shapes that flow through the
normalization/formatting core: `None`, booleans, integers, floats (kept as a
decimal mantissa/exponent pair, since no embedded code computes with them),
strings, lists and string-keyed dicts. -/
inductive PyVal where
  | none
  | bool (b : Bool)
  | int (n : Int)
  | float (m : Int) (e : Int)
  | str (s : String)
  | list (xs : PyList)
  | dict (kvs : PyDict)

/-- A Python list of `PyVal`s (a mutual inductive so that recursion over
nested values stays structural). -/
inductive PyList where
  | nil
  | cons (v : PyVal) (rest : PyList)

/-- A Python dict with string keys, as an insertion-ordered key/value
sequence (Python dicts preserve insertion order and have unique keys; the
embedding allows duplicate keys, with all operations acting on the first
occurrence, which coincides with Python on duplicate-free sequences). -/
inductive PyDict where
  | nil
  | cons (k : String) (v : PyVal) (rest : PyDict)
end

def PyList.ofList : List PyVal → PyList
  | [] => .nil
  | v :: rest => .cons v (PyList.ofList rest)

def PyList.toList : PyList → List PyVal
  | .nil => []
  | .cons v rest => v :: PyList.toList rest

def PyDict.ofList : List (String × PyVal) → PyDict
  | [] => .nil
  | kv :: rest => .cons kv.1 kv.2 (PyDict.ofList rest)

/-- Python truthiness (`bool(x)`): `None`, `False`, `0`, `0.0`, `""`, `[]`
and the empty dict are falsy; everything else is truthy. -/
def pyTruthy : PyVal → Bool
  | .none => false
  | .bool b => b
  | .int n => n != 0
  | .float m _ => m != 0
  | .str s => !s.isEmpty
  | .list .nil => false
  | .list (.cons _ _) => true
  | .dict .nil => false
  | .dict (.cons _ _ _) => true

mutual
/-- Python `repr`. Strings are wrapped in single quotes without escaping
(faithful for the quote-free strings the embedded code manipulates); floats
are rendered from their mantissa/exponent pair. -/
def pyRepr : PyVal → String
  | .none => "None"
  | .bool b => if b then "True" else "False"
  | .int n => toString n
  | .float m e => toString m ++ "e" ++ toString e
  | .str s => "\x27" ++ s ++ "\x27"
  | .list xs => "[" ++ String.intercalate (", ") (pyReprList xs) ++ "]"
  | .dict kvs => "\x7b" ++ String.intercalate (", ") (pyReprDict kvs) ++ "\x7d"

def pyReprList : PyList → List String
  | .nil => []
  | .cons v rest => pyRepr v :: pyReprList rest

def pyReprDict : PyDict → List String
  | .nil => []
  | .cons k v rest => ("\x27" ++ k ++ "\x27: " ++ pyRepr v) :: pyReprDict rest
end

/-- Python `str(x)`: the string itself for strings, `repr` otherwise. -/
def pyStr : PyVal → String
  | .str s => s
  | v => pyRepr v

mutual
/-- Python `==`. Booleans and integers compare numerically (`True == 1`);
lists compare elementwise; dicts compare as ordered sequences here (Python
compares them as unordered mappings, but the embedded code only ever applies
`==` to scalars, via the `in` test of `validate_status`). -/
def pyEq : PyVal → PyVal → Bool
  | .none, .none => true
  | .bool a, .bool b => a == b
  | .bool a, .int n => (if a then (1 : Int) else 0) == n
  | .int n, .bool a => n == (if a then (1 : Int) else 0)
  | .int m, .int n => m == n
  | .float m e, .float m2 e2 => m == m2 && e == e2
  | .str a, .str b => a == b
  | .list xs, .list ys => pyEqList xs ys
  | .dict a, .dict b => pyEqDict a b
  | _, _ => false

def pyEqList : PyList → PyList → Bool
  | .nil, .nil => true
  | .cons v r, .cons w s => pyEq v w && pyEqList r s
  | _, _ => false

def pyEqDict : PyDict → PyDict → Bool
  | .nil, .nil => true
  | .cons k v r, .cons k2 w s => k == k2 && pyEq v w && pyEqDict r s
  | _, _ => false
end

/-- Python `x in l` for a list `l`: elementwise `==` membership. -/
def pyInList (v : PyVal) : List PyVal → Bool
  | [] => false
  | w :: rest => pyEq v w || pyInList v rest

/- ============================================================
   Dict primitives (Python dict operations)
   ============================================================ -/

/-- `d.get(k)` / `d[k]`: the value at the first occurrence of key `k`. -/
def PyDict.get (k : String) : PyDict → Option PyVal
  | .nil => Option.none
  | .cons k2 v rest => if k2 == k then some v else PyDict.get k rest

/-- `d.get(k, default)`. -/
def PyDict.getD (k : String) (dflt : PyVal) (d : PyDict) : PyVal :=
  (d.get k).getD dflt

/-- `k in d`. -/
def PyDict.containsKey (k : String) : PyDict → Bool
  | .nil => false
  | .cons k2 _ rest => k2 == k || PyDict.containsKey k rest

/-- `d[k] = v`: replace the value at the first occurrence of `k`, keeping its
position; append if the key is absent (Python keeps the original insertion
position of an existing key on assignment). -/
def PyDict.set (k : String) (v : PyVal) : PyDict → PyDict
  | .nil => .cons k v .nil
  | .cons k2 w rest =>
      if k2 == k then .cons k2 v rest else .cons k2 w (PyDict.set k v rest)

/-- Append one key/value pair at the end of the sequence. -/
def PyDict.append (k : String) (v : PyVal) : PyDict → PyDict
  | .nil => .cons k v .nil
  | .cons k2 w rest => .cons k2 w (PyDict.append k v rest)

/-- `d.setdefault(k, v)`: insert `(k, v)` at the end iff `k` is absent. -/
def PyDict.setdefault (k : String) (v : PyVal) (d : PyDict) : PyDict :=
  if d.containsKey k then d else d.append k v

/- ============================================================
   String primitives (Python str methods on lists of characters)
   ============================================================ -/

/-- The characters stripped by Python `str.strip()` (ASCII whitespace; the
rarely-relevant non-ASCII Unicode spaces are not modelled). -/
def pyIsSpace (c : Char) : Bool :=
  c = ' ' || c = '\t' || c = '\n' || c = '\x0d' || c = '\x0b' || c = '\x0c'

/-- Strip characters satisfying `p` from both ends of a character list. -/
def stripWith (p : Char → Bool) (cs : List Char) : List Char :=
  ((cs.dropWhile p).reverse.dropWhile p).reverse

/-- Python `s.strip()` on a string. -/
def pyStrip (s : String) : String :=
  String.mk (stripWith pyIsSpace s.data)

/-- Python `s.split(sep)` for a single-character separator: split at every
occurrence, keeping empty pieces. -/
def splitChar (sep : Char) : List Char → List (List Char)
  | [] => [[]]
  | c :: rest =>
      let r := splitChar sep rest
      if c = sep then [] :: r
      else match r with
        | [] => [[c]]
        | piece :: more => (c :: piece) :: more

/-- Python `s.split(". ")`: split at every occurrence of the two-character
separator, scanning left to right without overlap, keeping empty pieces. -/
def splitDotSpace : List Char → List Char → List (List Char)
  | '.' :: ' ' :: rest, acc => acc.reverse :: splitDotSpace rest []
  | c :: rest, acc => splitDotSpace rest (c :: acc)
  | [], acc => [acc.reverse]

/-- Python `s.replace("\n", ". ")` (each newline becomes a dot and a space). -/
def replaceNewlineDotSpace (cs : List Char) : List Char :=
  cs.flatMap (fun c => if c = '\n' then ['.', ' '] else [c])

/-- The last character of a character list, if any. -/
def lastChar? : List Char → Option Char
  | [] => Option.none
  | [c] => some c
  | _ :: c :: rest => lastChar? (c :: rest)

/-- Python `s.startswith(c)` for a one-character needle. -/
def strStartsWithChar (s : String) (c : Char) : Bool :=
  match s.data with
  | [] => false
  | c2 :: _ => c2 = c

/-- Python `s.endswith(c)` for a one-character needle. -/
def strEndsWithChar (s : String) (c : Char) : Bool :=
  match lastChar? s.data with
  | some c2 => c2 = c
  | Option.none => false

/-- Python `s.isdigit()` restricted to ASCII digits: nonempty and all digits
(the embedded code only tests pieces produced by an ASCII-digit regex). -/
def pyIsDigitStr (cs : List Char) : Bool :=
  !cs.isEmpty && cs.all (·.isDigit)

/-- Is this value Python's `None`? (`x is None`). -/
def isPyNone : PyVal → Bool
  | .none => true
  | _ => false

/-- `isinstance(x, bool)`. -/
def isPyBool : PyVal → Bool
  | .bool _ => true
  | _ => false

/-- `isinstance(x, str)`. -/
def isPyStr : PyVal → Bool
  | .str _ => true
  | _ => false

/-- `isinstance(x, dict)`. -/
def isPyDict : PyVal → Bool
  | .dict _ => true
  | _ => false

/-- `isinstance(x, list)`. -/
def isPyList : PyVal → Bool
  | .list _ => true
  | _ => false

/- ============================================================
   utils.py - Status Utilities
   ============================================================ -/

/-- The `valid_statuses` list of `validate_status` (utils.py line 14). -/
def valid_statuses : List PyVal :=
  [.str ("open"), .str ("in_progress"), .str ("resolved"), .str ("closed")]

/-- `validate_status` (utils.py lines 13-19): return `status` if it is a
member of `valid_statuses`, else the default `'open'` (also for `None`). -/
def validate_status (status : PyVal) : PyVal :=
  if isPyNone status || !pyInList status valid_statuses then .str ("open")
  else status

/- ============================================================
   utils.py - Ticket Normalizer
   ============================================================ -/

/-- The `defaults` mapping of `normalize_ticket_data` (utils.py lines 56-80),
in source order. -/
def ticketDefaults : List (String × PyVal) :=
  [("id", .str ("Unknown")),
   ("title", .str ("Untitled")),
   ("description", .str ("No description provided")),
   ("user_email", .str ("Unknown User")),
   ("category", .str ("unknown")),
   ("status", .str ("open")),
   ("created_at", .str ("N/A")),
   ("updated_at", .str ("N/A")),
   ("last_update", .str ("N/A")),
   ("resolved_at", .none),
   ("resolved_by", .none),
   ("similarity_score", .int 0),
   ("attachments", .list .nil),
   ("user_resolution_steps", .str ("")),
   ("it_resolution_steps", .str (""))]

/-- `normalize_ticket_data` (utils.py lines 45-93): inject each default with
`setdefault` (never overwriting present keys), re-validate `status`, and
coerce a boolean `resolved_at` to `None`. The `ticket["status"]` read uses a
`None` fallback that is unreachable, since the defaults pass guarantees the
key is present. -/
def normalize_ticket_data (ticket : PyDict) : PyDict :=
  let t1 := ticketDefaults.foldl (fun acc kv => acc.setdefault kv.1 kv.2) ticket
  let t2 := t1.set ("status") (validate_status (t1.getD ("status") .none))
  if isPyBool (t2.getD ("resolved_at") .none) then t2.set ("resolved_at") .none
  else t2

/- ============================================================
   utils.py - Date / Time Formatting Utilities
   ============================================================ -/

/-- A parsed naive `datetime` value. -/
structure PyDateTime where
  year : Nat
  month : Nat
  day : Nat
  hour : Nat
  minute : Nat
  second : Nat
  micro : Nat
deriving DecidableEq

/-- Numeric value of an ASCII digit. -/
def digitVal (c : Char) : Nat := c.toNat - 48

/-- Read exactly two ASCII digits. -/
def read2 : List Char → Option (Nat × List Char)
  | a :: b :: rest =>
      if a.isDigit && b.isDigit then some (digitVal a * 10 + digitVal b, rest)
      else Option.none
  | _ => Option.none

/-- Read exactly four ASCII digits. -/
def read4 : List Char → Option (Nat × List Char)
  | a :: b :: c :: d :: rest =>
      if a.isDigit && b.isDigit && c.isDigit && d.isDigit then
        some (((digitVal a * 10 + digitVal b) * 10 + digitVal c) * 10 + digitVal d, rest)
      else Option.none
  | _ => Option.none

/-- Gregorian leap year test. -/
def isLeapYear (y : Nat) : Bool :=
  (y % 4 = 0 && y % 100 != 0) || y % 400 = 0

/-- Days in a month of a given year. -/
def daysInMonth (y m : Nat) : Nat :=
  if m = 2 then (if isLeapYear y then 29 else 28)
  else if m = 4 || m = 6 || m = 9 || m = 11 then 30
  else 31

/-- Microseconds from `.ffffff` fraction digits (1 to 6 of them), scaled as
if right-padded with zeros to six digits. -/
def fracMicros : List Char → Nat → Nat
  | [], acc => acc
  | c :: rest, acc => fracMicros rest (acc * 10 + digitVal c)

def padMicros (digits : List Char) : Nat :=
  fracMicros digits 0 * 10 ^ (6 - digits.length)

/-- Parse the `HH[:MM[:SS[.ffffff]]]` time part, requiring end of input. -/
def readTimePart (cs : List Char) : Option (Nat × Nat × Nat × Nat) :=
  match read2 cs with
  | Option.none => Option.none
  | some (h, r1) =>
    match r1 with
    | [] => some (h, 0, 0, 0)
    | ':' :: r2 =>
      match read2 r2 with
      | Option.none => Option.none
      | some (mi, r3) =>
        match r3 with
        | [] => some (h, mi, 0, 0)
        | ':' :: r4 =>
          match read2 r4 with
          | Option.none => Option.none
          | some (sec, r5) =>
            match r5 with
            | [] => some (h, mi, sec, 0)
            | '.' :: r6 =>
                if 1 ≤ r6.length && r6.length ≤ 6 && r6.all (·.isDigit) then
                  some (h, mi, sec, padMicros r6)
                else Option.none
            | _ => Option.none
        | _ => Option.none
    | _ => Option.none

/-- Model of `datetime.fromisoformat` on the naive ISO-8601 subset the
application exchanges: `YYYY-MM-DD`, optionally followed by a `T` or space
separator and `HH[:MM[:SS[.f..f]]]` (1-6 fraction digits), with full
range validation; strings outside this subset (including ones carrying a
UTC-offset suffix) are treated as unparseable. -/
def datetime_fromisoformat (s : String) : Option PyDateTime :=
  match read4 s.data with
  | Option.none => Option.none
  | some (y, r1) =>
    match r1 with
    | '-' :: r2 =>
      match read2 r2 with
      | Option.none => Option.none
      | some (mo, r3) =>
        match r3 with
        | '-' :: r4 =>
          match read2 r4 with
          | Option.none => Option.none
          | some (d, r5) =>
            let mk (h mi sec micro : Nat) : Option PyDateTime :=
              if 1 ≤ y && 1 ≤ mo && mo ≤ 12 && 1 ≤ d && d ≤ daysInMonth y mo
                  && h ≤ 23 && mi ≤ 59 && sec ≤ 59 then
                some ⟨y, mo, d, h, mi, sec, micro⟩
              else Option.none
            match r5 with
            | [] => mk 0 0 0 0
            | sep :: r6 =>
                if sep = 'T' || sep = ' ' then
                  match readTimePart r6 with
                  | some (h, mi, sec, micro) => mk h mi sec micro
                  | Option.none => Option.none
                else Option.none
        | _ => Option.none
    | _ => Option.none

/-- `parse_iso` (utils.py lines 100-108): `None` for falsy or non-string
input, else `fromisoformat` on the string with every `"Z"` removed
(`replace("Z", "")`), with parse failures absorbed to `None`. -/
def parse_iso (date_str : PyVal) : Option PyDateTime :=
  match date_str with
  | .str s =>
      if s.isEmpty then Option.none
      else datetime_fromisoformat (String.mk (s.data.filter (fun c => c ≠ 'Z')))
  | _ => Option.none

/-- Leap years in `[1..n]`. -/
def leapYearsUpto (n : Nat) : Nat := n / 4 - n / 100 + n / 400

/-- Days in years `[1..y-1]`. -/
def daysBeforeYear (y : Nat) : Nat := 365 * (y - 1) + leapYearsUpto (y - 1)

/-- Days in months `[1..m-1]` of year `y`. -/
def daysBeforeMonth (y m : Nat) : Nat :=
  (List.range (m - 1)).foldl (fun acc i => acc + daysInMonth y (i + 1)) 0

/-- Absolute timeline position of a naive datetime, in microseconds since the
start of year 1 - the exact quantity `end - start` measures. -/
def PyDateTime.toMicros (dt : PyDateTime) : Int :=
  (((daysBeforeYear dt.year + daysBeforeMonth dt.year dt.month + (dt.day - 1)) * 86400
    + dt.hour * 3600 + dt.minute * 60 + dt.second) * 1000000 + dt.micro : Nat)

/-- `calculate_resolution_time` (utils.py lines 118-130): `"N/A"` unless both
endpoints parse; otherwise `diff = end - start`,
`hours = diff.total_seconds() // 3600` and
`minutes = (diff.total_seconds() % 3600) // 60`, rendered as
`f"{int(hours)}h {int(minutes)}m"`. Python's float `//` and `%` against the
positive divisors 3600 and 60 are floor division and nonnegative remainder,
which is exactly `Int` `/` and `%` on the microsecond difference. -/
def calculate_resolution_time (created resolved : PyVal) : String :=
  match parse_iso created, parse_iso resolved with
  | some st, some en =>
      let diff : Int := en.toMicros - st.toMicros
      let hours : Int := diff / 3600000000
      let minutes : Int := (diff % 3600000000) / 60000000
      s!"{hours}h {minutes}m"
  | _, _ => "N/A"

/- ============================================================
   json.loads model (for utils.parse_response_body)
   ============================================================ -/


/-- JSON insignificant whitespace. -/
def jsonWs (c : Char) : Bool :=
  c = ' ' || c = '\t' || c = '\n' || c = '\x0d'

/-- Value of a hex digit, if any. -/
def hexVal (c : Char) : Option Nat :=
  if '0' ≤ c && c ≤ '9' then some (c.toNat - 48)
  else if 'a' ≤ c && c ≤ 'f' then some (c.toNat - 87)
  else if 'A' ≤ c && c ≤ 'F' then some (c.toNat - 55)
  else Option.none

/-- Scan a JSON string body after its opening quote: ordinary characters,
`\\`-escapes (including `\uXXXX`), terminated by an unescaped quote.
Unescaped control characters are rejected, as in Python's `json`. -/
def jsonStringBody : List Char → Option (List Char × List Char)
  | [] => Option.none
  | '"' :: rest => some ([], rest)
  | '\\' :: 'u' :: a :: b :: c :: d :: rest =>
      (match hexVal a, hexVal b, hexVal c, hexVal d with
       | some x, some y, some z, some w =>
           (jsonStringBody rest).map
             (fun p => (Char.ofNat (((x * 16 + y) * 16 + z) * 16 + w) :: p.1, p.2))
       | _, _, _, _ => Option.none)
  | '\\' :: e :: rest =>
      (match e with
       | '"' => some '"'
       | '\\' => some '\\'
       | '/' => some '/'
       | 'b' => some '\x08'
       | 'f' => some '\x0c'
       | 'n' => some '\n'
       | 'r' => some '\x0d'
       | 't' => some '\t'
       | _ => Option.none).bind
        (fun ch => (jsonStringBody rest).map
          (fun (p : List Char × List Char) => (ch :: p.1, p.2)))
  | c :: rest =>
      if c.toNat < 32 then Option.none
      else (jsonStringBody rest).map
        (fun (p : List Char × List Char) => (c :: p.1, p.2))

/-- Digits to a natural number. -/
def digitsToNat (ds : List Char) : Nat :=
  ds.foldl (fun acc c => acc * 10 + digitVal c) 0

/-- Scan a JSON number (integer part with the no-leading-zero rule, optional
fraction, optional exponent). Integers become `PyVal.int`; a fraction or
exponent makes the value a `PyVal.float` with decimal mantissa/exponent. -/
def jsonNumber (cs : List Char) : Option (PyVal × List Char) :=
  let (neg, cs1) := match cs with
    | '-' :: rest => (true, rest)
    | _ => (false, cs)
  let (ds, cs2) := cs1.span (·.isDigit)
  if ds.isEmpty then Option.none
  else if 2 ≤ ds.length && ds.headD '0' = '0' then Option.none
  else
    let (fds, cs3) : List Char × List Char := match cs2 with
      | '.' :: rest => rest.span (·.isDigit)
      | _ => ([], cs2)
    if cs2.headD ' ' = '.' && fds.isEmpty then Option.none
    else
      let hasFrac := cs2.headD ' ' = '.'
      let (expPart, cs4) : Option Int × List Char := match cs3 with
        | e :: rest =>
            if e = 'e' || e = 'E' then
              let (esign, r2) : Int × List Char := match rest with
                | '+' :: r => ((1 : Int), r)
                | '-' :: r => ((-1 : Int), r)
                | _ => ((1 : Int), rest)
              let (eds, r3) := r2.span (·.isDigit)
              if eds.isEmpty then (Option.none, cs3)
              else (some (esign * (digitsToNat eds : Int)), r3)
            else (Option.none, cs3)
        | [] => (Option.none, cs3)
      let sign : Int := if neg then -1 else 1
      if !hasFrac && expPart.isNone then
        some (.int (sign * (digitsToNat ds : Int)), cs2)
      else
        some (.float (sign * (digitsToNat (ds ++ fds) : Int))
                     (expPart.getD 0 - (fds.length : Int)), cs4)

mutual
/-- Fuelled recursive-descent scan of one JSON value (the fuel only bounds
nesting bookkeeping; `json_loads` always supplies enough of it). -/
def jsonValue : Nat → List Char → Option (PyVal × List Char)
  | 0, _ => Option.none
  | fuel + 1, cs =>
    match cs.dropWhile jsonWs with
    | 'n' :: 'u' :: 'l' :: 'l' :: rest => some (.none, rest)
    | 't' :: 'r' :: 'u' :: 'e' :: rest => some (.bool true, rest)
    | 'f' :: 'a' :: 'l' :: 's' :: 'e' :: rest => some (.bool false, rest)
    | '"' :: rest =>
        (jsonStringBody rest).map (fun p => (.str (String.mk p.1), p.2))
    | '[' :: rest =>
        (match rest.dropWhile jsonWs with
         | ']' :: r2 => some (.list .nil, r2)
         | _ => (jsonElems fuel rest).map
                  (fun (p : PyList × List Char) => (.list p.1, p.2)))
    | '{' :: rest =>
        (match rest.dropWhile jsonWs with
         | '}' :: r2 => some (.dict .nil, r2)
         | _ => (jsonMembers fuel rest).map
                  (fun (p : PyDict × List Char) => (.dict p.1, p.2)))
    | rest => jsonNumber rest

/-- Comma-separated JSON array elements up to the closing bracket. -/
def jsonElems : Nat → List Char → Option (PyList × List Char)
  | 0, _ => Option.none
  | fuel + 1, cs =>
    match jsonValue fuel cs with
    | Option.none => Option.none
    | some (v, r1) =>
      match r1.dropWhile jsonWs with
      | ',' :: r2 => (jsonElems fuel r2).map
          (fun (p : PyList × List Char) => (.cons v p.1, p.2))
      | ']' :: r2 => some (.cons v .nil, r2)
      | _ => Option.none

/-- Comma-separated JSON object members up to the closing brace. -/
def jsonMembers : Nat → List Char → Option (PyDict × List Char)
  | 0, _ => Option.none
  | fuel + 1, cs =>
    match cs.dropWhile jsonWs with
    | '"' :: r1 =>
      match jsonStringBody r1 with
      | Option.none => Option.none
      | some (key, r2) =>
        match r2.dropWhile jsonWs with
        | ':' :: r3 =>
          match jsonValue fuel r3 with
          | Option.none => Option.none
          | some (v, r4) =>
            match r4.dropWhile jsonWs with
            | ',' :: r5 =>
                (jsonMembers fuel r5).map
                  (fun (p : PyDict × List Char) => (.cons (String.mk key) v p.1, p.2))
            | '}' :: r5 => some (.cons (String.mk key) v .nil, r5)
            | _ => Option.none
        | _ => Option.none
    | _ => Option.none
end

/-- Model of `json.loads`: parse one JSON document and require only
whitespace after it; any lexical or structural error is a parse failure
(`None` here, a raised `JSONDecodeError` in Python). -/
def json_loads (s : String) : Option PyVal :=
  match jsonValue (2 * s.data.length + 4) s.data with
  | some (v, rest) =>
      if (rest.dropWhile jsonWs).isEmpty then some v else Option.none
  | Option.none => Option.none

/- ============================================================
   utils.py - Response Normalization
   ============================================================ -/

/-- `parse_response_body` (utils.py lines 137-150): take `body` from the
response with `{}` as fallback; a string body is handed to `json.loads`
(whose parsed value is returned whatever its type, with a parse failure
caught and absorbed to `{}` by the surrounding `try`/`except`); a dict body
is returned unchanged; any other body shape yields `{}`. -/
def parse_response_body (response : PyDict) : PyVal :=
  match response.getD ("body") (.dict .nil) with
  | .str s =>
      match json_loads s with
      | some v => v
      | Option.none => .dict .nil
  | .dict d => .dict d
  | _ => .dict .nil

/- ============================================================
   utils.py - Search Query Validation
   ============================================================ -/

/-- `validate_search_query` (utils.py lines 197-203): `None` for falsy or
non-string input and for strings that strip to empty; otherwise the stripped
query truncated to its first 200 characters. -/
def validate_search_query (query : PyVal) : Option String :=
  match query with
  | .str s =>
      if s.isEmpty then Option.none
      else
        let q := pyStrip s
        if q.length = 0 then Option.none
        else some (String.mk (q.data.take 200))
  | _ => Option.none

/- ============================================================
   utils.py - clean_and_format_ai_output
   ============================================================ -/

/-- `text.split("]")[-1]`: everything after the last `]` (the whole text when
there is none, since `split` then returns the one-element list). -/
def afterLastRBracket (cs : List Char) : List Char :=
  (splitChar ']' cs).getLastD []

/-- `clean_and_format_ai_output` (utils.py lines 235-273). Lists: each
element is `str`-ed, stripped, cut down to the text after its last `]`, and
kept as a `<li>` when nonempty. Strings: text after the last `]` (when one
occurs), then split into pieces at `". "` after newlines are rewritten to
`". "`; two or more nonempty pieces give a `<ul>`, otherwise a single `<p>`.
Anything else is wrapped in `<p>` directly. Every branch produces a value,
so the function never raises - hence the `Except.ok` on every path. -/
def clean_and_format_ai_output (text : PyVal) : Except String String :=
  match text with
  | .list xs =>
      let items := (xs.toList).filterMap (fun t =>
        let cleaned := pyStrip (pyStr t)
        let cleaned2 := pyStrip (String.mk (afterLastRBracket cleaned.data))
        if cleaned2.isEmpty then Option.none
        else some ("<li>" ++ cleaned2 ++ "</li>"))
      .ok ("<ul>" ++ String.join items ++ "</ul>")
  | .str s =>
      let text1 : String :=
        if s.data.contains ']' then pyStrip (String.mk (afterLastRBracket s.data))
        else s
      let parts :=
        ((splitDotSpace (replaceNewlineDotSpace text1.data) []).map
          (fun p => pyStrip (String.mk p))).filter (fun p => !p.isEmpty)
      if 1 < parts.length then
        .ok ("<ul>" ++ String.join (parts.map (fun p => "<li>" ++ p ++ "</li>")) ++ "</ul>")
      else .ok ("<p>" ++ text1 ++ "</p>")
  | other => .ok ("<p>" ++ pyStr other ++ "</p>")

/- ============================================================
   utils.py - smart_format_ai_output
   ============================================================ -/

/-- The optional trailing punctuation class of the step-marker regex. -/
def regexPunct (c : Char) : Bool := c = '.' || c = '-' || c = ')'

/-- One attempted match of the step-marker regex
`\s*(?<!\d)(\d+)\s*[\.\-\)]?\s*` at the current scan position: greedy
whitespace, then a digit run whose first digit must not be preceded by a
digit in the original string (the negative lookbehind; vacuous when the
leading whitespace is nonempty), greedy whitespace, at most one of `.`,
`-`, `)`, and greedy whitespace. Returns the captured digit run, the
remaining input, and the last character the match consumed. -/
def markerMatchAt (prevIsDigit : Bool) (cs : List Char) :
    Option (List Char × List Char × Char) :=
  let (ws, cs1) := cs.span pyIsSpace
  match cs1 with
  | c :: _ =>
      if c.isDigit && (!ws.isEmpty || !prevIsDigit) then
        let (ds, cs2) := cs1.span (·.isDigit)
        let (ws2, cs3) := cs2.span pyIsSpace
        let (punct, cs4) : List Char × List Char := match cs3 with
          | p :: r => if regexPunct p then ([p], r) else ([], cs3)
          | [] => ([], [])
        let (ws3, cs5) := cs4.span pyIsSpace
        some (ds, cs5, (ws ++ ds ++ ws2 ++ punct ++ ws3).getLastD ' ')
      else Option.none
  | [] => Option.none

/-- `re.split(r"\s*(?<!\d)(\d+)\s*[\.\-\)]?\s*", text)`: scan left to right
for non-overlapping leftmost matches, emitting the text between matches
interleaved with the captured digit runs (so the result alternates segment,
capture, segment, ...). The fuel is only scan bookkeeping;
`length + 1` always suffices since every step consumes a character. -/
def reSplitDigits (fuel : Nat) (prevIsDigit : Bool) (cs : List Char)
    (seg : List Char) : List String :=
  match fuel with
  | 0 => [String.mk seg.reverse]
  | fuel + 1 =>
    match markerMatchAt prevIsDigit cs with
    | some (ds, rest, lastC) =>
        String.mk seg.reverse :: String.mk ds ::
          reSplitDigits fuel lastC.isDigit rest []
    | Option.none =>
      match cs with
      | [] => [String.mk seg.reverse]
      | c :: rest => reSplitDigits fuel c.isDigit rest (c :: seg)

/-- `re.sub(r"^bot[:\- ]*", "", text, flags=re.IGNORECASE)`: drop a leading
case-insensitive `bot` together with the following run of `:`, `-`, and
spaces. -/
def stripBotMarker (cs : List Char) : List Char :=
  match cs with
  | b :: o :: t :: rest =>
      if b.toLower = 'b' && o.toLower = 'o' && t.toLower = 't' then
        rest.dropWhile (fun c => c = ':' || c = '-' || c = ' ')
      else cs
  | _ => cs

/-- One iteration of the split-piece loop of `smart_format_ai_output`
(utils.py lines 302-313): strip the piece, skip it when empty, flush the
accumulated step at a pure-digit piece, and append any other piece to the
current step with a space. -/
def stepFold (acc : List String × String) (part : String) : List String × String :=
  let p := pyStrip part
  if p.isEmpty then acc
  else if pyIsDigitStr p.data then
    (if acc.2.isEmpty then acc.1 else acc.1 ++ [pyStrip acc.2], "")
  else (acc.1, acc.2 ++ " " ++ p)

/-- The split-piece loop of `smart_format_ai_output` (utils.py lines
299-316): fold `stepFold` over the pieces and flush the final step. -/
def collectSteps (parts : List String) : List String :=
  let fin := parts.foldl stepFold ([], "")
  if fin.2.isEmpty then fin.1 else fin.1 ++ [pyStrip fin.2]

/-- `smart_format_ai_output` (utils.py lines 276-328). Falsy input yields the
placeholder paragraph. A list is joined into one text block with
`" ".join(str(x) ...)`. The text then has newlines turned into spaces and
bullet glyphs removed, is stripped, loses a leading `bot` marker, and is
split at numeric step markers; the pieces are folded into steps and rendered
as `<li>` bullets, with the whole cleaned text as a `<p>` fallback when no
step survives. A truthy value that is neither a list nor a string reaches
`raw_text.replace(...)` and raises `AttributeError` - the one error path. -/
def smart_format_ai_output (raw_text : PyVal) : Except String String :=
  if !pyTruthy raw_text then .ok ("<p>No suggestion available.</p>")
  else
    match (match raw_text with
           | .list xs => Except.ok (String.intercalate (" ") ((xs.toList).map pyStr))
           | .str s => Except.ok s
           | _ => Except.error ("AttributeError")) with
    | .error e => .error e
    | .ok s0 =>
      let t2 := stripBotMarker (stripWith pyIsSpace
        ((s0.data.map (fun c => if c = '\n' then ' ' else c)).filter (fun c => c ≠ '•')))
      let steps := collectSteps (reSplitDigits (t2.length + 1) false t2 [])
      if steps.isEmpty then .ok ("<p>" ++ String.mk t2 ++ "</p>")
      else .ok ("<ul>" ++
        String.join (steps.map (fun st => "<li>" ++ st ++ "</li>")) ++ "</ul>")

/- ============================================================
   ast.literal_eval model (for admin_app.smart_format_ai_output)
   ============================================================ -/

/-- Scan a Python string-literal body up to the closing quote `q`, with the
basic escapes; exotic escape forms are treated as parse failures. -/
def litStrBody (q : Char) : List Char → Option (List Char × List Char)
  | [] => Option.none
  | '\\' :: e :: rest =>
      (match e with
       | 'n' => some '\n'
       | 't' => some '\t'
       | '\\' => some '\\'
       | '\x27' => some '\x27'
       | '"' => some '"'
       | 'r' => some '\x0d'
       | _ => Option.none).bind
        (fun ch => (litStrBody q rest).map
          (fun (p : List Char × List Char) => (ch :: p.1, p.2)))
  | c :: rest =>
      if c = q then some ([], rest)
      else (litStrBody q rest).map
        (fun (p : List Char × List Char) => (c :: p.1, p.2))

/-- A decimal integer literal (a lone `0`, or a nonzero leading digit). -/
def litNat (cs : List Char) : Option (Nat × List Char) :=
  let (ds, rest) := cs.span (·.isDigit)
  if ds.isEmpty then Option.none
  else if 2 ≤ ds.length && ds.headD '0' = '0' then Option.none
  else some (digitsToNat ds, rest)

mutual
/-- Fuelled scan of one Python literal: `None`, `True`, `False`, integers,
quoted strings, and (possibly nested) list displays with an optional
trailing comma. Other literal forms (tuples, dicts, floats, ...) are
treated as parse failures, which the caller absorbs by falling through,
exactly as it does for genuinely malformed input. -/
def litValue : Nat → List Char → Option (PyVal × List Char)
  | 0, _ => Option.none
  | fuel + 1, cs =>
    match cs.dropWhile pyIsSpace with
    | 'N' :: 'o' :: 'n' :: 'e' :: rest => some (.none, rest)
    | 'T' :: 'r' :: 'u' :: 'e' :: rest => some (.bool true, rest)
    | 'F' :: 'a' :: 'l' :: 's' :: 'e' :: rest => some (.bool false, rest)
    | '\x27' :: rest =>
        (litStrBody '\x27' rest).map
          (fun (p : List Char × List Char) => (.str (String.mk p.1), p.2))
    | '"' :: rest =>
        (litStrBody '"' rest).map
          (fun (p : List Char × List Char) => (.str (String.mk p.1), p.2))
    | '[' :: rest =>
        (match rest.dropWhile pyIsSpace with
         | ']' :: r2 => some (.list .nil, r2)
         | _ => (litElems fuel rest).map
             (fun (p : PyList × List Char) => (.list p.1, p.2)))
    | '-' :: rest =>
        (litNat rest).map
          (fun (p : Nat × List Char) => (.int (-(p.1 : Int)), p.2))
    | rest =>
        (litNat rest).map
          (fun (p : Nat × List Char) => (.int (p.1 : Int), p.2))

/-- Comma-separated list elements up to `]`, allowing a trailing comma. -/
def litElems : Nat → List Char → Option (PyList × List Char)
  | 0, _ => Option.none
  | fuel + 1, cs =>
    match litValue fuel cs with
    | Option.none => Option.none
    | some (v, r1) =>
      match r1.dropWhile pyIsSpace with
      | ',' :: r2 =>
          (match r2.dropWhile pyIsSpace with
           | ']' :: r3 => some (.cons v .nil, r3)
           | _ => (litElems fuel r2).map
               (fun (p : PyList × List Char) => (.cons v p.1, p.2)))
      | ']' :: r2 => some (.cons v .nil, r2)
      | _ => Option.none
end

/-- Model of `ast.literal_eval` on the literal subset above: parse one
literal and require only whitespace after it. -/
def ast_literal_eval (s : String) : Option PyVal :=
  match litValue (2 * s.data.length + 4) s.data with
  | some (v, rest) =>
      if (rest.dropWhile pyIsSpace).isEmpty then some v else Option.none
  | Option.none => Option.none

/- ============================================================
   admin_app.py - local smart_format_ai_output
   ============================================================ -/

namespace AdminApp

/-- The `-`, `•`, space character set of `l.strip("-• ")`. -/
def dashBulletSpace (c : Char) : Bool := c = '-' || c = '•' || c = ' '

/-- The newline-splitting fallback of the admin formatter (admin_app.py
lines 55-58): keep the lines with nonempty whitespace-strip, take
`l.strip("-• ").strip()` of each, and emit them as `<li>` items. -/
def lineBullets (txt : String) : String :=
  let lines := ((splitChar '\n' txt.data).filter
      (fun l => !(pyStrip (String.mk l)).isEmpty)).map
    (fun l => pyStrip (String.mk (stripWith dashBulletSpace l)))
  "<ul>" ++ String.join (lines.map (fun l => "<li>" ++ l ++ "</li>")) ++ "</ul>"

/-- The `smart_format_ai_output` defined locally in admin_app.py (lines
29-61), which shadows the one imported from utils.py and is the variant the
admin panel actually calls. Falsy input gives a placeholder; a real list is
bulleted directly; a string that (after stripping) starts with `[` and ends
with `]` is offered to `ast.literal_eval`, and a successfully parsed list is
bulleted, while a parse failure or non-list result falls through to
newline-splitting; other values are wrapped in `<p>`. Every branch returns,
so this variant is total. -/
def smart_format_ai_output (output : PyVal) : String :=
  if !pyTruthy output then "<p>No data returned.</p>"
  else match output with
  | .list items =>
      "<ul>" ++ String.join ((items.toList).map
        (fun item => "<li>" ++ pyStrip (pyStr item) ++ "</li>")) ++ "</ul>"
  | .str s =>
      let txt := pyStrip s
      if strStartsWithChar txt '[' && strEndsWithChar txt ']' then
        match ast_literal_eval txt with
        | some (.list parsed) =>
            "<ul>" ++ String.join ((parsed.toList).map
              (fun item => "<li>" ++ pyStrip (pyStr item) ++ "</li>")) ++ "</ul>"
        | some _ => lineBullets txt
        | Option.none => lineBullets txt
      else lineBullets txt
  | other => "<p>" ++ pyStr other ++ "</p>"

end AdminApp

/- ============================================================
   Spec-level shape of numbered narrative text (for claim C7)
   ============================================================ -/

/-- Narrative text built from numbered steps, the shape claim C7 describes:
each pair is a numeric marker and its step text, rendered
`n₁. s₁ n₂. s₂ ...` (marker digits, a period, a space, the step text, one
space before the next marker). -/
def markerJoin : List (String × String) → String
  | [] => ""
  | (n, s) :: rest =>
      n ++ ". " ++ s ++
        (match rest with
         | [] => ""
         | _ :: _ => " " ++ markerJoin rest)

/-- The piece list `re.split` produces for such text after its leading empty
segment: each marker's digits followed by its step text. -/
def markerParts : List (String × String) → List String
  | [] => []
  | (n, s) :: rest => n :: s :: markerParts rest

/-- Exactly the fuel the splitter spends on such text: one step per marker
match, one per step-text character, and one final step at the end of
input. -/
def scanFuel : List (String × String) → Nat
  | [] => 1
  | (_, s) :: rest => 1 + s.data.length + scanFuel rest

/-- The text that follows a step: nothing at the end of the narrative, or a
single separating space and the remaining numbered steps. -/
def sepTail : List (String × String) → List Char
  | [] => []
  | (n, s) :: rest => ' ' :: (markerJoin ((n, s) :: rest)).data

/-- A well-formed numeric marker: nonempty, all ASCII digits. -/
def goodMarker (n : String) : Prop :=
  n.data ≠ [] ∧ ∀ c ∈ n.data, c.isDigit = true

/-- A well-formed step text for claim C7: nonempty; free of digits (which
would read as new markers), newlines, and bullet glyphs (which the cleaning
pass would rewrite); and not starting or ending in whitespace (which
stripping would remove). Interior spaces are fine. -/
def goodSeg (s : String) : Prop :=
  s.data ≠ []
  ∧ (∀ c ∈ s.data, c.isDigit = false ∧ c ≠ '\n' ∧ c ≠ '•')
  ∧ (∀ c, s.data.head? = some c → pyIsSpace c = false)
  ∧ (∀ c, lastChar? s.data = some c → pyIsSpace c = false)

/- ============================================================
   Lemmas about the dict primitives
   ============================================================ -/

/-- Induction on the key/value spine of a dict (the dict operations never
recurse into the stored values, so no motive on `PyVal` is needed). -/
def PyDict.spineInduction {motive : PyDict → Prop} (nil : motive .nil)
    (cons : ∀ k v rest, motive rest → motive (.cons k v rest)) :
    (d : PyDict) → motive d
  | .nil => nil
  | .cons k v rest => cons k v rest (PyDict.spineInduction nil cons rest)

theorem PyDict.get_set_self (d : PyDict) (k : String) (v : PyVal) :
    (d.set k v).get k = some v := by
  induction d using PyDict.spineInduction with
  | nil => simp [PyDict.set, PyDict.get]
  | cons k2 w rest ih =>
      by_cases h : k2 = k
      · subst h; simp [PyDict.set, PyDict.get]
      · simp [PyDict.set, PyDict.get, h, ih]

theorem PyDict.get_set_ne (d : PyDict) {k k2 : String} (v : PyVal)
    (h : k2 ≠ k) : (d.set k2 v).get k = d.get k := by
  induction d using PyDict.spineInduction with
  | nil => simp [PyDict.set, PyDict.get, h]
  | cons k3 w rest ih =>
      by_cases h3 : k3 = k2
      · subst h3; simp [PyDict.set, PyDict.get, h]
      · simp [PyDict.set, PyDict.get, h3, ih]

theorem PyDict.set_get_self (d : PyDict) {k : String} {v : PyVal}
    (h : d.get k = some v) : d.set k v = d := by
  induction d using PyDict.spineInduction with
  | nil => simp [PyDict.get] at h
  | cons k2 w rest ih =>
      by_cases h2 : k2 = k
      · subst h2
        simp [PyDict.get] at h
        simp [PyDict.set, h]
      · simp [PyDict.get, h2] at h
        simp [PyDict.set, h2, ih h]

theorem PyDict.containsKey_set (d : PyDict) (k k2 : String) (v : PyVal)
    (h : d.containsKey k = true) : (d.set k2 v).containsKey k = true := by
  induction d using PyDict.spineInduction with
  | nil => simp [PyDict.containsKey] at h
  | cons k3 w rest ih =>
      by_cases h3 : k3 = k2
      · subst h3
        simp [PyDict.containsKey] at h ⊢
        simp [PyDict.set]
        simpa [PyDict.containsKey] using h
      · simp [PyDict.set, h3]
        simp [PyDict.containsKey] at h ⊢
        rcases h with h | h
        · exact Or.inl h
        · exact Or.inr (ih h)

theorem PyDict.containsKey_set_self (d : PyDict) (k : String) (v : PyVal) :
    (d.set k v).containsKey k = true := by
  induction d using PyDict.spineInduction with
  | nil => simp [PyDict.set, PyDict.containsKey]
  | cons k2 w rest ih =>
      by_cases h : k2 = k
      · subst h; simp [PyDict.set, PyDict.containsKey]
      · simp [PyDict.set, PyDict.containsKey, h, ih]

theorem PyDict.get_append_of_contains (d : PyDict) (k k2 : String) (v : PyVal)
    (h : d.containsKey k = true) : (d.append k2 v).get k = d.get k := by
  induction d using PyDict.spineInduction with
  | nil => simp [PyDict.containsKey] at h
  | cons k3 w rest ih =>
      by_cases h3 : k3 = k
      · subst h3; simp [PyDict.append, PyDict.get]
      · simp [PyDict.containsKey, h3] at h
        simp [PyDict.append, PyDict.get, h3, ih h]

theorem PyDict.containsKey_append (d : PyDict) (k k2 : String) (v : PyVal)
    (h : d.containsKey k = true) : (d.append k2 v).containsKey k = true := by
  induction d using PyDict.spineInduction with
  | nil => simp [PyDict.containsKey] at h
  | cons k3 w rest ih =>
      simp [PyDict.containsKey] at h
      rcases h with h | h
      · simp [PyDict.append, PyDict.containsKey, h]
      · simp [PyDict.append, PyDict.containsKey, ih h]

theorem PyDict.containsKey_append_self (d : PyDict) (k : String) (v : PyVal) :
    (d.append k v).containsKey k = true := by
  induction d using PyDict.spineInduction with
  | nil => simp [PyDict.append, PyDict.containsKey]
  | cons k2 w rest ih => simp [PyDict.append, PyDict.containsKey, ih]

theorem PyDict.setdefault_of_contains (d : PyDict) (k : String) (v : PyVal)
    (h : d.containsKey k = true) : d.setdefault k v = d := by
  simp [PyDict.setdefault, h]

theorem PyDict.containsKey_setdefault_self (d : PyDict) (k : String) (v : PyVal) :
    (d.setdefault k v).containsKey k = true := by
  by_cases h : d.containsKey k = true
  · simp [PyDict.setdefault, h]
  · simp [PyDict.setdefault, h]
    simp at h
    simp [h, PyDict.containsKey_append_self]

theorem PyDict.containsKey_setdefault (d : PyDict) (k k2 : String) (v : PyVal)
    (h : d.containsKey k = true) : (d.setdefault k2 v).containsKey k = true := by
  unfold PyDict.setdefault
  by_cases h2 : d.containsKey k2 = true
  · simp [h2, h]
  · simp at h2
    simp [h2, PyDict.containsKey_append _ _ _ _ h]

theorem PyDict.get_setdefault_of_contains (d : PyDict) (k k2 : String) (v : PyVal)
    (h : d.containsKey k = true) : (d.setdefault k2 v).get k = d.get k := by
  unfold PyDict.setdefault
  by_cases h2 : d.containsKey k2 = true
  · simp [h2]
  · simp at h2
    simp [h2, PyDict.get_append_of_contains _ _ _ _ h]

theorem PyDict.containsKey_iff_get (d : PyDict) (k : String) :
    d.containsKey k = true ↔ ∃ v, d.get k = some v := by
  induction d using PyDict.spineInduction with
  | nil => simp [PyDict.containsKey, PyDict.get]
  | cons k2 w rest ih =>
      by_cases h : k2 = k
      · subst h; simp [PyDict.containsKey, PyDict.get]
      · simp [PyDict.containsKey, PyDict.get, h, ih]

theorem PyDict.getD_eq_of_get (d : PyDict) {k : String} {v : PyVal}
    (dflt : PyVal) (h : d.get k = some v) : d.getD k dflt = v := by
  simp [PyDict.getD, h]

/- ============================================================
   Lemmas about the defaults fold of the Ticket Normalizer
   ============================================================ -/

theorem foldl_setdefault_containsKey (ds : List (String × PyVal)) (d : PyDict)
    (k : String) (h : d.containsKey k = true) :
    (ds.foldl (fun acc kv => acc.setdefault kv.1 kv.2) d).containsKey k = true := by
  induction ds generalizing d with
  | nil => simpa using h
  | cons kv rest ih =>
      simp only [List.foldl_cons]
      exact ih _ (PyDict.containsKey_setdefault _ _ _ _ h)

theorem foldl_setdefault_get (ds : List (String × PyVal)) (d : PyDict)
    (k : String) (h : d.containsKey k = true) :
    (ds.foldl (fun acc kv => acc.setdefault kv.1 kv.2) d).get k = d.get k := by
  induction ds generalizing d with
  | nil => simp
  | cons kv rest ih =>
      simp only [List.foldl_cons]
      rw [ih _ (PyDict.containsKey_setdefault _ _ _ _ h)]
      exact PyDict.get_setdefault_of_contains _ _ _ _ h

theorem foldl_setdefault_containsKey_of_mem (ds : List (String × PyVal))
    (d : PyDict) (k : String) (h : k ∈ ds.map Prod.fst) :
    (ds.foldl (fun acc kv => acc.setdefault kv.1 kv.2) d).containsKey k = true := by
  induction ds generalizing d with
  | nil => simp at h
  | cons kv rest ih =>
      simp only [List.map_cons, List.mem_cons] at h
      simp only [List.foldl_cons]
      rcases h with h | h
      · subst h
        exact foldl_setdefault_containsKey _ _ _
          (PyDict.containsKey_setdefault_self _ _ _)
      · exact ih _ h

theorem foldl_setdefault_eq_self (ds : List (String × PyVal)) (d : PyDict)
    (h : ∀ kv ∈ ds, d.containsKey kv.1 = true) :
    ds.foldl (fun acc kv => acc.setdefault kv.1 kv.2) d = d := by
  induction ds with
  | nil => simp
  | cons kv rest ih =>
      simp only [List.foldl_cons]
      rw [PyDict.setdefault_of_contains _ _ _ (h kv (by simp))]
      exact ih (fun kv2 h2 => h kv2 (by simp [h2]))

/- ============================================================
   Lemmas about the Status Validator
   ============================================================ -/

theorem pyEq_str_iff (v : PyVal) (s : String) : pyEq v (.str s) = true ↔ v = .str s := by
  cases v <;> simp [pyEq]

theorem pyInList_valid_statuses (v : PyVal) (h : pyInList v valid_statuses = true) :
    v = .str ("open") ∨ v = .str ("in_progress") ∨ v = .str ("resolved")
      ∨ v = .str ("closed") := by
  simp only [valid_statuses, pyInList, Bool.or_eq_true] at h
  rcases h with h | h | h | h | h
  · exact Or.inl ((pyEq_str_iff v _).mp h)
  · exact Or.inr (Or.inl ((pyEq_str_iff v _).mp h))
  · exact Or.inr (Or.inr (Or.inl ((pyEq_str_iff v _).mp h)))
  · exact Or.inr (Or.inr (Or.inr ((pyEq_str_iff v _).mp h)))
  · simp [pyInList] at h

theorem validate_status_shape (v : PyVal) :
    ∃ s, validate_status v = .str s ∧
      (s = "open" ∨ s = "in_progress" ∨ s = "resolved" ∨ s = "closed") := by
  unfold validate_status
  by_cases h : (isPyNone v || !pyInList v valid_statuses) = true
  · rw [if_pos h]
    exact ⟨"open", rfl, Or.inl rfl⟩
  · rw [if_neg h]
    simp only [Bool.or_eq_true, Bool.not_eq_true', not_or] at h
    rcases pyInList_valid_statuses v (by simpa using h.2) with h4 | h4 | h4 | h4 <;>
      subst h4
    · exact ⟨"open", rfl, Or.inl rfl⟩
    · exact ⟨"in_progress", rfl, Or.inr (Or.inl rfl)⟩
    · exact ⟨"resolved", rfl, Or.inr (Or.inr (Or.inl rfl))⟩
    · exact ⟨"closed", rfl, Or.inr (Or.inr (Or.inr rfl))⟩

theorem validate_status_idem (v : PyVal) :
    validate_status (validate_status v) = validate_status v := by
  rcases validate_status_shape v with ⟨s, hs, h4⟩
  rw [hs]
  rcases h4 with rfl | rfl | rfl | rfl <;> rfl

/- ============================================================
   Lemmas about the Ticket Normalizer
   ============================================================ -/

theorem isPyBool_iff (v : PyVal) : isPyBool v = true ↔ ∃ b, v = .bool b := by
  cases v <;> simp [isPyBool]

theorem containsKey_normalize (t : PyDict) (k : String)
    (h : k ∈ ticketDefaults.map Prod.fst) :
    (normalize_ticket_data t).containsKey k = true := by
  have h1 := foldl_setdefault_containsKey_of_mem ticketDefaults t k h
  simp only [normalize_ticket_data]
  split
  · exact PyDict.containsKey_set _ k _ _ (PyDict.containsKey_set _ k _ _ h1)
  · exact PyDict.containsKey_set _ k _ _ h1

theorem get_status_normalize (t : PyDict) :
    (normalize_ticket_data t).get ("status")
      = some (validate_status
          ((ticketDefaults.foldl (fun acc kv => acc.setdefault kv.1 kv.2) t).getD
            ("status") .none)) := by
  simp only [normalize_ticket_data]
  split
  · rw [PyDict.get_set_ne _ _ (by decide)]
    exact PyDict.get_set_self _ _ _
  · exact PyDict.get_set_self _ _ _

theorem get_resolved_at_normalize (t : PyDict) :
    ∃ r, (normalize_ticket_data t).get ("resolved_at") = some r ∧
      isPyBool r = false := by
  have h1 := foldl_setdefault_containsKey_of_mem ticketDefaults t ("resolved_at")
    (by simp [ticketDefaults])
  have h2 := PyDict.containsKey_set _ ("resolved_at") ("status")
    (validate_status ((ticketDefaults.foldl (fun acc kv => acc.setdefault kv.1 kv.2)
      t).getD ("status") .none)) h1
  obtain ⟨v, hv⟩ := (PyDict.containsKey_iff_get _ _).mp h2
  simp only [normalize_ticket_data]
  split
  · exact ⟨.none, PyDict.get_set_self _ _ _, rfl⟩
  · next hcond =>
      refine ⟨v, hv, ?_⟩
      rw [PyDict.getD_eq_of_get _ _ hv] at hcond
      simpa using hcond

/-- Claim C3 - Ticket normalization (`normalize_ticket_data`) is idempotent:
normalizing an already-normalized ticket is a no-op, for every raw ticket
mapping (even one with duplicate keys, which real Python dicts cannot
carry). -/
theorem normalize_ticket_data_idempotent (t : PyDict) :
    normalize_ticket_data (normalize_ticket_data t) = normalize_ticket_data t := by
  have hkeys : ∀ kv ∈ ticketDefaults,
      (normalize_ticket_data t).containsKey kv.1 = true := by
    intro kv hkv
    exact containsKey_normalize t kv.1 (List.mem_map_of_mem _ hkv)
  have hfold := foldl_setdefault_eq_self ticketDefaults (normalize_ticket_data t) hkeys
  have hstat := get_status_normalize t
  obtain ⟨r, hr, hrb⟩ := get_resolved_at_normalize t
  conv_lhs => rw [normalize_ticket_data]
  rw [hfold]
  rw [PyDict.getD_eq_of_get _ _ hstat, validate_status_idem,
    PyDict.set_get_self _ hstat]
  rw [PyDict.getD_eq_of_get _ _ hr, hrb]
  simp

/-- Claim C4 - After normalization: every canonical default key is present;
a key already present in the input keeps its value unless it is `status` or
a boolean-valued `resolved_at`; the `status` value is one of the four
enumerated strings; `resolved_at` is never a boolean; and
`normalize({"resolved_at": true})` yields `resolved_at == None`. -/
theorem normalize_ticket_data_invariants (t : PyDict) :
    (∀ k, k ∈ ticketDefaults.map Prod.fst →
        (normalize_ticket_data t).containsKey k = true)
  ∧ (∀ k, t.containsKey k = true → k ≠ "status" →
        (k = "resolved_at" → ∀ b, t.get k ≠ some (.bool b)) →
        (normalize_ticket_data t).get k = t.get k)
  ∧ (∃ s, (normalize_ticket_data t).get ("status") = some (.str s) ∧
        (s = "open" ∨ s = "in_progress" ∨ s = "resolved" ∨ s = "closed"))
  ∧ (∀ b, (normalize_ticket_data t).get ("resolved_at") ≠ some (.bool b))
  ∧ (normalize_ticket_data (PyDict.cons ("resolved_at") (.bool true) .nil)).get
      ("resolved_at") = some .none := by
  refine ⟨fun k hk => containsKey_normalize t k hk, ?_, ?_, ?_, by rfl⟩
  · intro k hk hks hkr
    have hget : (ticketDefaults.foldl (fun acc kv => acc.setdefault kv.1 kv.2)
        t).get k = t.get k := foldl_setdefault_get _ _ _ hk
    have ht2 : ((ticketDefaults.foldl (fun acc kv => acc.setdefault kv.1 kv.2)
          t).set ("status") (validate_status
            ((ticketDefaults.foldl (fun acc kv => acc.setdefault kv.1 kv.2) t).getD
              ("status") .none))).get k = t.get k := by
      rw [PyDict.get_set_ne _ _ (fun h => hks h.symm), hget]
    simp only [normalize_ticket_data]
    by_cases hra : k = "resolved_at"
    · subst hra
      obtain ⟨v, hv⟩ := (PyDict.containsKey_iff_get _ _).mp hk
      have hvb : isPyBool v = false := by
        rcases Bool.eq_false_or_eq_true (isPyBool v) with h | h
        · obtain ⟨b, rfl⟩ := (isPyBool_iff v).mp h
          exact absurd hv (hkr rfl b)
        · exact h
      rw [hv] at ht2
      split
      · next hcond =>
          rw [PyDict.getD_eq_of_get _ _ ht2, hvb] at hcond
          simp at hcond
      · rw [ht2, hv]
    · split
      · rw [PyDict.get_set_ne _ _ (fun h => hra h.symm), ht2]
      · exact ht2
  · obtain ⟨s, hs, h4⟩ := validate_status_shape
      ((ticketDefaults.foldl (fun acc kv => acc.setdefault kv.1 kv.2) t).getD
        ("status") .none)
    exact ⟨s, by rw [get_status_normalize t, hs], h4⟩
  · intro b hb
    obtain ⟨r, hr, hrb⟩ := get_resolved_at_normalize t
    rw [hr] at hb
    obtain rfl : r = PyVal.bool b := by simpa using hb
    simp [isPyBool] at hrb

/-- Witness for claim C4, at the one-key ticket `{"title": "T"}`: the `title`
value survives normalization unchanged. -/
theorem normalize_ticket_data_invariants_witness :
    (normalize_ticket_data (PyDict.cons ("title") (.str ("T")) .nil)).get
      ("title") = some (.str ("T")) := by
  have h := (normalize_ticket_data_invariants
      (PyDict.cons ("title") (.str ("T")) .nil)).2.1 ("title")
    (by rfl) (by decide) (fun h => absurd h (by decide))
  rw [h]
  rfl

/-- Claim C5 - `validate_status` is total and deterministic: the output is
always one of the four enumerated status strings, a member of the set maps
to itself, and everything else (including `None` and numbers) maps to
`open`. -/
theorem validate_status_total (v : PyVal) :
    (∃ s, validate_status v = .str s ∧
        (s = "open" ∨ s = "in_progress" ∨ s = "resolved" ∨ s = "closed"))
  ∧ (pyInList v valid_statuses = true → validate_status v = v)
  ∧ (pyInList v valid_statuses = false → validate_status v = .str ("open")) := by
  refine ⟨validate_status_shape v, ?_, ?_⟩
  · intro h
    rcases pyInList_valid_statuses v h with rfl | rfl | rfl | rfl <;> rfl
  · intro h
    simp [validate_status, h]

/-- Witness for claim C5: `resolved` is kept, the number `7` falls back to
`open`. -/
theorem validate_status_total_witness :
    validate_status (.str ("resolved")) = .str ("resolved")
  ∧ validate_status (.int 7) = .str ("open") :=
  ⟨(validate_status_total (.str ("resolved"))).2.1 (by rfl),
   (validate_status_total (.int 7)).2.2 (by rfl)⟩

/- ============================================================
   Claim C10 - validate_search_query
   ============================================================ -/

theorem string_length_eq_zero_iff (s : String) : s.length = 0 ↔ s = "" := by
  rw [String.ext_iff]
  exact List.length_eq_zero

theorem pyStrip_empty : pyStrip ("") = "" := rfl

/-- Claim C10 - `validate_search_query` returns `None` exactly for non-string
input and strings that strip to empty (which covers `None`, numbers, the
empty string, and whitespace-only strings); every `some` result is the
stripped query cut to its first 200 characters, hence nonempty and of length
at most 200. -/
theorem validate_search_query_spec (v : PyVal) :
    (validate_search_query v = Option.none ↔
        isPyStr v = false ∨ ∃ s, v = .str s ∧ pyStrip s = "")
  ∧ (∀ r, validate_search_query v = some r →
        r ≠ "" ∧ r.length ≤ 200 ∧
          ∃ s, v = .str s ∧ r = String.mk ((pyStrip s).data.take 200)) := by
  constructor
  · cases v with
    | str s =>
        simp only [validate_search_query, isPyStr, PyVal.str.injEq]
        by_cases he : s.isEmpty = true
        · have hs : s = "" := (String.isEmpty_iff s).mp he
          subst hs
          exact iff_of_true (by rfl) (Or.inr ⟨"", rfl, pyStrip_empty⟩)
        · rw [if_neg he]
          by_cases hl : (pyStrip s).length = 0
          · rw [if_pos hl]
            exact iff_of_true rfl
              (Or.inr ⟨s, rfl, (string_length_eq_zero_iff _).mp hl⟩)
          · rw [if_neg hl]
            constructor
            · intro h; exact absurd h (by simp)
            · rintro (h | ⟨s2, rfl, h2⟩)
              · simp [isPyStr] at h
              · exact absurd ((string_length_eq_zero_iff _).mpr h2) hl
    | _ => simp [validate_search_query, isPyStr]
  · intro r hr
    cases v with
    | str s =>
        simp only [validate_search_query] at hr
        by_cases he : s.isEmpty = true
        · rw [if_pos he] at hr; exact absurd hr (by simp)
        · rw [if_neg he] at hr
          by_cases hl : (pyStrip s).length = 0
          · rw [if_pos hl] at hr; exact absurd hr (by simp)
          · rw [if_neg hl] at hr
            injection hr with hr
            subst hr
            refine ⟨?_, ?_, s, rfl, rfl⟩
            · intro h
              rw [String.ext_iff] at h
              have hdata : (pyStrip s).data ≠ [] := by
                intro h2
                exact hl (by simp [String.length, h2])
              rcases hx : (pyStrip s).data with _ | ⟨c, cs⟩
              · exact hdata hx
              · rw [hx] at h
                simp at h
            · show ((pyStrip s).data.take 200).length ≤ 200
              simp [List.length_take]
    | none => simp [validate_search_query] at hr
    | bool b => simp [validate_search_query] at hr
    | int n => simp [validate_search_query] at hr
    | float m e => simp [validate_search_query] at hr
    | list xs => simp [validate_search_query] at hr
    | dict kvs => simp [validate_search_query] at hr

/-- Witness for claim C10, at the padded query `" hi "`: the result `"hi"` is
nonempty, within the 200-character cap, and equal to the stripped truncated
query. -/
theorem validate_search_query_spec_witness :
    ("hi" : String) ≠ "" ∧ ("hi" : String).length ≤ 200 ∧
      ∃ s, PyVal.str (" hi ") = .str s ∧
        ("hi" : String) = String.mk ((pyStrip s).data.take 200) :=
  (validate_search_query_spec (.str (" hi "))).2 ("hi") (by rfl)

/- ============================================================
   Claim C1 - failure policy of the AI Free-Text Reformatter
   ============================================================ -/

/-- Claim C1 (amended) - `clean_and_format_ai_output` indeed never raises,
for input of any shape; `smart_format_ai_output` never raises for `None`,
string, or list input, but a truthy value of any other type reaches
`raw_text.replace(...)` and raises `AttributeError` (see the accompanying
counterexample), so its totality only holds on the null/list/string
shapes. -/
theorem ai_reformatter_never_raises (v : PyVal) :
    (isPyNone v = true ∨ isPyStr v = true ∨ isPyList v = true →
        ∃ s, smart_format_ai_output v = .ok s)
  ∧ (∃ s, clean_and_format_ai_output v = .ok s) := by
  constructor
  · intro h
    cases v with
    | none => exact ⟨_, rfl⟩
    | str s =>
        unfold smart_format_ai_output
        split
        · exact ⟨_, rfl⟩
        · dsimp only
          split
          · exact ⟨_, rfl⟩
          · exact ⟨_, rfl⟩
    | list xs =>
        unfold smart_format_ai_output
        split
        · exact ⟨_, rfl⟩
        · dsimp only
          split
          · exact ⟨_, rfl⟩
          · exact ⟨_, rfl⟩
    | bool b => simp [isPyNone, isPyStr, isPyList] at h
    | int n => simp [isPyNone, isPyStr, isPyList] at h
    | float m e => simp [isPyNone, isPyStr, isPyList] at h
    | dict kvs => simp [isPyNone, isPyStr, isPyList] at h
  · cases v with
    | str s =>
        unfold clean_and_format_ai_output
        dsimp only
        split <;> split <;> exact ⟨_, rfl⟩
    | none => exact ⟨_, rfl⟩
    | bool b => exact ⟨_, rfl⟩
    | int n => exact ⟨_, rfl⟩
    | float m e => exact ⟨_, rfl⟩
    | list xs => exact ⟨_, rfl⟩
    | dict kvs => exact ⟨_, rfl⟩

/-- Counterexample for claim C1: the truthy integer `5` is neither falsy nor
a list nor a string, so `smart_format_ai_output` reaches
`raw_text.replace(...)` and raises instead of returning a degraded result. -/
theorem ai_reformatter_raises_on_int :
    smart_format_ai_output (.int 5) = .error ("AttributeError")
  ∧ (smart_format_ai_output (.int 5)).isOk = false :=
  ⟨rfl, rfl⟩

/-- Witness for claim C1, at the string `"ok"` and (for the second conjunct)
the integer `5`. -/
theorem ai_reformatter_never_raises_witness :
    (∃ s, smart_format_ai_output (.str ("ok")) = .ok s)
  ∧ (∃ s, clean_and_format_ai_output (.int 5) = .ok s) :=
  ⟨(ai_reformatter_never_raises (.str ("ok"))).1 (Or.inr (Or.inl rfl)),
   (ai_reformatter_never_raises (.int 5)).2⟩

/- ============================================================
   Claim C2 - the envelope unwrapper
   ============================================================ -/

theorem PyDict.get_eq_none_of_not_contains (d : PyDict) (k : String)
    (h : d.containsKey k = false) : d.get k = Option.none := by
  rcases hx : d.get k with _ | v
  · rfl
  · rw [(PyDict.containsKey_iff_get d k).mpr ⟨v, hx⟩] at h
    cases h

/-- Claim C2 (amended) - `parse_response_body` never raises (every branch of
the embedding returns a value; the `try`/`except` absorbs the only raising
operation, `json.loads`); a missing `body` key, a body of non-string
non-dict shape, and an unparseable string body all yield the empty mapping,
and a dict body is returned unchanged. But a string body is returned as
whatever JSON value it parses to, so the result fails to be a mapping
exactly when the body is a string holding a well-formed non-object JSON
document. -/
theorem parse_response_body_spec (r : PyDict) :
    (r.containsKey ("body") = false → parse_response_body r = .dict .nil)
  ∧ (∀ d, r.get ("body") = some (.dict d) → parse_response_body r = .dict d)
  ∧ (∀ s, r.get ("body") = some (.str s) →
        parse_response_body r = (json_loads s).getD (.dict .nil))
  ∧ (∀ b, r.get ("body") = some b → isPyStr b = false → isPyDict b = false →
        parse_response_body r = .dict .nil)
  ∧ (isPyDict (parse_response_body r) = false →
        ∃ s v, r.get ("body") = some (.str s) ∧ json_loads s = some v ∧
          isPyDict v = false ∧ parse_response_body r = v) := by
  refine ⟨?_, ?_, ?_, ?_, ?_⟩
  · intro h
    simp [parse_response_body, PyDict.getD,
      PyDict.get_eq_none_of_not_contains _ _ h]
  · intro d hd
    simp [parse_response_body, PyDict.getD, hd]
  · intro s hs
    rcases hj : json_loads s with _ | v <;>
      simp [parse_response_body, PyDict.getD, hs, hj]
  · intro b hb h1 h2
    cases b <;> simp [isPyStr, isPyDict] at h1 h2 <;>
      simp [parse_response_body, PyDict.getD, hb]
  · intro h
    rcases hb : r.get ("body") with _ | b
    · rw [show parse_response_body r = .dict .nil by
        simp [parse_response_body, PyDict.getD, hb]] at h
      simp [isPyDict] at h
    · cases b with
      | str s =>
          rcases hj : json_loads s with _ | v
          · rw [show parse_response_body r = .dict .nil by
              simp [parse_response_body, PyDict.getD, hb, hj]] at h
            simp [isPyDict] at h
          · have hp : parse_response_body r = v := by
              simp [parse_response_body, PyDict.getD, hb, hj]
            exact ⟨s, v, rfl, hj, by rwa [hp] at h, hp⟩
      | dict d =>
          rw [show parse_response_body r = .dict d by
            simp [parse_response_body, PyDict.getD, hb]] at h
          simp [isPyDict] at h
      | none =>
          rw [show parse_response_body r = .dict .nil by
            simp [parse_response_body, PyDict.getD, hb]] at h
          simp [isPyDict] at h
      | bool b2 =>
          rw [show parse_response_body r = .dict .nil by
            simp [parse_response_body, PyDict.getD, hb]] at h
          simp [isPyDict] at h
      | int n =>
          rw [show parse_response_body r = .dict .nil by
            simp [parse_response_body, PyDict.getD, hb]] at h
          simp [isPyDict] at h
      | float m e =>
          rw [show parse_response_body r = .dict .nil by
            simp [parse_response_body, PyDict.getD, hb]] at h
          simp [isPyDict] at h
      | list xs =>
          rw [show parse_response_body r = .dict .nil by
            simp [parse_response_body, PyDict.getD, hb]] at h
          simp [isPyDict] at h

/-- Counterexample for claim C2: with the string body `"[1, 2]"` (a
well-formed JSON array), the unwrapper returns the parsed list itself, which
is not a mapping, refuting "always returns a mapping" and "on success return
parsed mapping". -/
theorem parse_response_body_nonmapping :
    parse_response_body (PyDict.cons ("body") (.str ("[1, 2]")) .nil)
      = .list (.cons (.int 1) (.cons (.int 2) .nil))
  ∧ isPyDict (parse_response_body (PyDict.cons ("body") (.str ("[1, 2]")) .nil))
      = false :=
  ⟨rfl, rfl⟩

/-- Witness for claim C2, exercising each case of the theorem at concrete
envelopes: a missing body, a dict body, a string body holding a JSON object,
a `None` body, and a string body holding a JSON array. -/
theorem parse_response_body_spec_witness :
    parse_response_body (PyDict.cons ("statusCode") (.int 200) .nil) = .dict .nil
  ∧ parse_response_body (PyDict.cons ("body") (.dict .nil) .nil) = .dict .nil
  ∧ parse_response_body (PyDict.cons ("body") (.str ("\x7b\"tickets\": []\x7d")) .nil)
      = (json_loads ("\x7b\"tickets\": []\x7d")).getD (.dict .nil)
  ∧ parse_response_body (PyDict.cons ("body") .none .nil) = .dict .nil
  ∧ ∃ s v, (PyDict.cons ("body") (.str ("[1, 2]")) .nil).get ("body")
        = some (.str s) ∧ json_loads s = some v ∧ isPyDict v = false ∧
        parse_response_body (PyDict.cons ("body") (.str ("[1, 2]")) .nil) = v :=
  ⟨(parse_response_body_spec _).1 (by rfl),
   (parse_response_body_spec _).2.1 .nil (by rfl),
   (parse_response_body_spec _).2.2.1 ("\x7b\"tickets\": []\x7d") (by rfl),
   (parse_response_body_spec _).2.2.2.1 .none (by rfl) (by rfl) (by rfl),
   (parse_response_body_spec _).2.2.2.2 (by rfl)⟩

/- ============================================================
   Claim C6 - calculate_resolution_time
   ============================================================ -/

/-- Claim C6 (amended) - `calculate_resolution_time` returns `"N/A"`
whenever either endpoint fails to parse; otherwise it renders
`"{hours}h {minutes}m"` where both components come from floor division of
the signed elapsed time (minutes is the remainder within the hour, always
in `[0, 60)`); the hours component is non-negative exactly when `resolved`
is not earlier than `created`, and a negative difference renders with a
negative hours component (see the accompanying counterexample); in
particular the 10:00-to-13:30 instance renders as `"3h 30m"`. -/
theorem calculate_resolution_time_spec :
    (∀ c r, parse_iso c = Option.none ∨ parse_iso r = Option.none →
        calculate_resolution_time c r = "N/A")
  ∧ (∀ c r tc tr, parse_iso c = some tc → parse_iso r = some tr →
        ∃ h m : Int,
          calculate_resolution_time c r = s!"{h}h {m}m"
          ∧ h = (tr.toMicros - tc.toMicros) / 3600000000
          ∧ m = ((tr.toMicros - tc.toMicros) % 3600000000) / 60000000
          ∧ 0 ≤ m ∧ m < 60
          ∧ (tc.toMicros ≤ tr.toMicros → 0 ≤ h)
          ∧ (tr.toMicros < tc.toMicros → h < 0))
  ∧ calculate_resolution_time (.str ("2024-01-01T10:00:00"))
      (.str ("2024-01-01T13:30:00")) = "3h 30m" := by
  refine ⟨?_, ?_, by rfl⟩
  · intro c r h
    rcases h with h | h
    · simp [calculate_resolution_time, h]
    · rcases hx : parse_iso c with _ | st <;>
        simp [calculate_resolution_time, h, hx]
  · intro c r tc tr hc hr
    refine ⟨(tr.toMicros - tc.toMicros) / 3600000000,
            ((tr.toMicros - tc.toMicros) % 3600000000) / 60000000,
            ?_, rfl, rfl, ?_, ?_, ?_, ?_⟩
    · simp [calculate_resolution_time, hc, hr]
    · omega
    · omega
    · intro hle; omega
    · intro hlt; omega

/-- Counterexample for claim C6: with `resolved` 3.5 hours before `created`
the code renders `"-4h 30m"` - a negative-hours string, not a rendering of
the non-negative elapsed time between the endpoints, which would be
`"3h 30m"`. -/
theorem calculate_resolution_time_negative :
    calculate_resolution_time (.str ("2024-01-01T13:30:00"))
      (.str ("2024-01-01T10:00:00")) = "-4h 30m"
  ∧ ("-4h 30m" : String) ≠ "3h 30m" :=
  ⟨rfl, by decide⟩

/-- Witness for claim C6: an unparseable endpoint gives `"N/A"`, and the
10:00/13:30 pair satisfies the full floor-division description. -/
theorem calculate_resolution_time_spec_witness :
    calculate_resolution_time (.str ("nope")) (.str ("2024-01-01T10:00:00"))
      = "N/A"
  ∧ ∃ h m : Int,
      calculate_resolution_time (.str ("2024-01-01T10:00:00"))
        (.str ("2024-01-01T13:30:00")) = s!"{h}h {m}m"
      ∧ h = ((⟨2024, 1, 1, 13, 30, 0, 0⟩ : PyDateTime).toMicros
              - (⟨2024, 1, 1, 10, 0, 0, 0⟩ : PyDateTime).toMicros) / 3600000000
      ∧ m = (((⟨2024, 1, 1, 13, 30, 0, 0⟩ : PyDateTime).toMicros
              - (⟨2024, 1, 1, 10, 0, 0, 0⟩ : PyDateTime).toMicros) % 3600000000)
            / 60000000
      ∧ 0 ≤ m ∧ m < 60
      ∧ ((⟨2024, 1, 1, 10, 0, 0, 0⟩ : PyDateTime).toMicros
            ≤ (⟨2024, 1, 1, 13, 30, 0, 0⟩ : PyDateTime).toMicros → 0 ≤ h)
      ∧ ((⟨2024, 1, 1, 13, 30, 0, 0⟩ : PyDateTime).toMicros
            < (⟨2024, 1, 1, 10, 0, 0, 0⟩ : PyDateTime).toMicros → h < 0) :=
  ⟨calculate_resolution_time_spec.1 (.str ("nope")) (.str ("2024-01-01T10:00:00"))
    (Or.inl (by rfl)),
   calculate_resolution_time_spec.2.1 (.str ("2024-01-01T10:00:00"))
    (.str ("2024-01-01T13:30:00")) ⟨2024, 1, 1, 10, 0, 0, 0⟩
    ⟨2024, 1, 1, 13, 30, 0, 0⟩ (by rfl) (by rfl)⟩

/- ============================================================
   Character and list helpers for the segmentation proof
   ============================================================ -/

theorem digit_char_facts (c : Char) (h : c.isDigit = true) :
    pyIsSpace c = false ∧ c ≠ '\n' ∧ c ≠ '•' ∧ c.toLower = c := by
  simp only [Char.isDigit, ge_iff_le, Bool.and_eq_true, decide_eq_true_eq] at h
  obtain ⟨h1, h2⟩ := h
  have h1n : (48 : Nat) ≤ c.val.toNat := h1
  have h2n : c.val.toNat ≤ (57 : Nat) := h2
  refine ⟨?_, ?_, ?_, ?_⟩
  · simp only [pyIsSpace, Bool.or_eq_false_iff, decide_eq_false_iff_not]
    refine ⟨⟨⟨⟨⟨?_, ?_⟩, ?_⟩, ?_⟩, ?_⟩, ?_⟩ <;>
      · intro hh
        subst hh
        exact absurd h1n (by decide)
  · intro hh; subst hh; exact absurd h1n (by decide)
  · intro hh; subst hh; exact absurd h2n (by decide)
  · have hn : c.toNat = c.val.toNat := rfl
    unfold Char.toLower
    show (if c.toNat ≥ 65 ∧ c.toNat ≤ 90 then Char.ofNat (c.toNat + 32) else c) = c
    rw [if_neg]
    rintro ⟨h3, _⟩
    rw [hn] at h3
    omega

theorem takeWhile_append_all (p : Char → Bool) (l1 l2 : List Char)
    (h : ∀ x ∈ l1, p x = true) :
    (l1 ++ l2).takeWhile p = l1 ++ l2.takeWhile p := by
  induction l1 with
  | nil => simp
  | cons c r ih =>
      simp only [List.cons_append, List.takeWhile_cons]
      rw [h c (by simp), ih (fun x hx => h x (by simp [hx]))]
      simp

theorem dropWhile_append_all (p : Char → Bool) (l1 l2 : List Char)
    (h : ∀ x ∈ l1, p x = true) :
    (l1 ++ l2).dropWhile p = l2.dropWhile p := by
  induction l1 with
  | nil => simp
  | cons c r ih =>
      simp only [List.cons_append, List.dropWhile_cons]
      rw [h c (by simp), ih (fun x hx => h x (by simp [hx]))]
      simp

theorem dropWhile_append_of_ne_nil (p : Char → Bool) (l1 l2 : List Char)
    (h : l1.dropWhile p ≠ []) :
    (l1 ++ l2).dropWhile p = l1.dropWhile p ++ l2 := by
  rw [List.dropWhile_append]
  simp [h]

theorem lastChar?_cons_cons (a b : Char) (l : List Char) :
    lastChar? (a :: b :: l) = lastChar? (b :: l) := rfl

theorem lastChar?_append_right (l1 l2 : List Char) (h : l2 ≠ []) :
    lastChar? (l1 ++ l2) = lastChar? l2 := by
  induction l1 with
  | nil => rfl
  | cons c r ih =>
      rcases hr : r ++ l2 with _ | ⟨d, rest⟩
      · rcases List.append_eq_nil.mp hr with ⟨_, h2⟩
        exact absurd h2 h
      · show lastChar? (c :: (r ++ l2)) = lastChar? l2
        rw [hr, lastChar?_cons_cons, ← hr, ih]

theorem lastChar?_mem (l : List Char) (c : Char) (h : lastChar? l = some c) :
    c ∈ l := by
  induction l with
  | nil => cases h
  | cons a r ih =>
      rcases r with _ | ⟨b, rest⟩
      · simp only [lastChar?, Option.some.injEq] at h
        simp [h]
      · rw [lastChar?_cons_cons] at h
        simp [ih h]

theorem lastChar?_eq_none_iff (l : List Char) :
    lastChar? l = Option.none ↔ l = [] := by
  induction l with
  | nil => simp [lastChar?]
  | cons a r ih =>
      rcases r with _ | ⟨b, rest⟩
      · simp [lastChar?]
      · rw [lastChar?_cons_cons]
        simp only [ih]
        simp

theorem lastChar?_reverse_cons (l : List Char) (c : Char) :
    lastChar? (l ++ [c]) = some c := by
  rw [lastChar?_append_right l [c] (by simp)]
  rfl

theorem head?_reverse_eq_lastChar? (l : List Char) :
    l.reverse.head? = lastChar? l := by
  induction l using List.reverseRecOn with
  | nil => rfl
  | append_singleton r c ih => simp [lastChar?_reverse_cons]

theorem dropWhile_eq_self_of_head (p : Char → Bool) (l : List Char)
    (h : ∀ c, l.head? = some c → p c = false) : l.dropWhile p = l := by
  cases l with
  | nil => rfl
  | cons c r => simp [List.dropWhile_cons, h c rfl]

theorem stripWith_eq_self (p : Char → Bool) (l : List Char)
    (hh : ∀ c, l.head? = some c → p c = false)
    (hl : ∀ c, lastChar? l = some c → p c = false) :
    stripWith p l = l := by
  unfold stripWith
  rw [dropWhile_eq_self_of_head p l hh]
  rw [dropWhile_eq_self_of_head p l.reverse
    (fun c hc => hl c (by rwa [head?_reverse_eq_lastChar?] at hc))]
  simp

theorem map_eq_self_of_fixed (f : Char → Char) (l : List Char)
    (h : ∀ c ∈ l, f c = c) : l.map f = l := by
  induction l with
  | nil => rfl
  | cons c r ih =>
      simp only [List.map_cons, h c (by simp),
        ih (fun x hx => h x (by simp [hx]))]

/- ============================================================
   Scan lemmas for the step-marker splitter
   ============================================================ -/

theorem lastChar?_tail_pred (P : Char → Prop) (c : Char) (cr : List Char)
    (h : ∀ x, lastChar? (c :: cr) = some x → P x) :
    ∀ x, lastChar? cr = some x → P x := by
  intro x hx
  rcases cr with _ | ⟨b, rest⟩
  · cases hx
  · exact h x ((lastChar?_cons_cons c b rest).symm ▸ hx)

/-- The step-marker regex cannot match anywhere inside a digit-free piece of
text that does not end in whitespace (the tail `rest` begins after that
piece). -/
theorem markerMatchAt_none_of_seg (prev : Bool) (cs rest : List Char)
    (hne : cs ≠ [])
    (hdig : ∀ c ∈ cs, c.isDigit = false)
    (hlast : ∀ c, lastChar? cs = some c → pyIsSpace c = false) :
    markerMatchAt prev (cs ++ rest) = Option.none := by
  have hdw : cs.dropWhile pyIsSpace ≠ [] := by
    intro h
    have hall := List.dropWhile_eq_nil_iff.mp h
    rcases hx : lastChar? cs with _ | c
    · exact hne ((lastChar?_eq_none_iff cs).mp hx)
    · have hmem := hall c (lastChar?_mem cs c hx)
      rw [hlast c hx] at hmem
      cases hmem
  unfold markerMatchAt
  rw [List.span_eq_take_drop, dropWhile_append_of_ne_nil pyIsSpace cs rest hdw]
  rcases hx : cs.dropWhile pyIsSpace with _ | ⟨c, cr⟩
  · exact absurd hx hdw
  · have hc : c ∈ cs := (List.dropWhile_sublist (p := pyIsSpace)).subset
      (by rw [hx]; exact List.mem_cons_self c cr)
    simp [hdig c hc]

theorem getLastD_append_singleton (l : List Char) (c d : Char) :
    (l ++ [c]).getLastD d = c := by
  simp

/-- The step-marker regex at a separator: one space, the marker digits, a
period, one space; it captures the digits, consumes through the trailing
space, and stops right before the following step text (whose first
character, if any, is not whitespace). -/
theorem markerMatchAt_sep (prev : Bool) (n srest : List Char)
    (hn : n ≠ []) (hd : ∀ c ∈ n, c.isDigit = true)
    (hs : ∀ c, srest.head? = some c → pyIsSpace c = false) :
    markerMatchAt prev (' ' :: (n ++ '.' :: ' ' :: srest))
      = some (n, srest, ' ') := by
  obtain ⟨c0, n', rfl⟩ : ∃ c0 n', n = c0 :: n' := by
    rcases n with _ | ⟨c0, n'⟩
    · exact absurd rfl hn
    · exact ⟨c0, n', rfl⟩
  have hc0 := hd c0 (by simp)
  have hc0s := (digit_char_facts c0 hc0).1
  have hsp : pyIsSpace ' ' = true := by decide
  have hdotd : ('.' : Char).isDigit = false := by decide
  have hdots : pyIsSpace '.' = false := by decide
  have hts : srest.takeWhile pyIsSpace = [] := by
    rcases srest with _ | ⟨c, r⟩
    · rfl
    · simp [List.takeWhile_cons, hs c rfl]
  have hds : srest.dropWhile pyIsSpace = srest :=
    dropWhile_eq_self_of_head pyIsSpace srest hs
  rw [show (c0 :: n') ++ '.' :: ' ' :: srest = c0 :: (n' ++ '.' :: ' ' :: srest)
      from rfl]
  have h1 : (' ' :: c0 :: (n' ++ '.' :: ' ' :: srest)).span pyIsSpace
      = ([' '], c0 :: (n' ++ '.' :: ' ' :: srest)) := by
    rw [List.span_eq_take_drop]
    simp [List.takeWhile_cons, List.dropWhile_cons, hsp, hc0s]
  have h2 : (c0 :: (n' ++ '.' :: ' ' :: srest)).span (fun c => c.isDigit)
      = (c0 :: n', '.' :: ' ' :: srest) := by
    rw [List.span_eq_take_drop]
    rw [show c0 :: (n' ++ '.' :: ' ' :: srest) = (c0 :: n') ++ '.' :: ' ' :: srest
        from rfl]
    rw [takeWhile_append_all _ (c0 :: n') _ hd,
      dropWhile_append_all _ (c0 :: n') _ hd]
    simp [List.takeWhile_cons, List.dropWhile_cons, hdotd]
  have h3 : ('.' :: ' ' :: srest).span pyIsSpace = ([], '.' :: ' ' :: srest) := by
    rw [List.span_eq_take_drop]
    simp [List.takeWhile_cons, List.dropWhile_cons, hdots]
  have h4 : (' ' :: srest).span pyIsSpace = ([' '], srest) := by
    rw [List.span_eq_take_drop]
    simp [List.takeWhile_cons, List.dropWhile_cons, hsp, hts, hds]
  unfold markerMatchAt
  rw [h1]
  dsimp only
  rw [if_pos (by simp [hc0])]
  rw [h2]
  dsimp only
  rw [h3]
  dsimp only
  rw [if_pos (by decide)]
  rw [h4]
  dsimp only
  rw [getLastD_append_singleton]

/-- The step-marker regex at the very start of the text (nothing precedes,
so the lookbehind holds vacuously). -/
theorem markerMatchAt_start (n srest : List Char)
    (hn : n ≠ []) (hd : ∀ c ∈ n, c.isDigit = true)
    (hs : ∀ c, srest.head? = some c → pyIsSpace c = false) :
    markerMatchAt false (n ++ '.' :: ' ' :: srest) = some (n, srest, ' ') := by
  obtain ⟨c0, n', rfl⟩ : ∃ c0 n', n = c0 :: n' := by
    rcases n with _ | ⟨c0, n'⟩
    · exact absurd rfl hn
    · exact ⟨c0, n', rfl⟩
  have hc0 := hd c0 (by simp)
  have hc0s := (digit_char_facts c0 hc0).1
  have hdotd : ('.' : Char).isDigit = false := by decide
  have hdots : pyIsSpace '.' = false := by decide
  have hsp : pyIsSpace ' ' = true := by decide
  have hts : srest.takeWhile pyIsSpace = [] := by
    rcases srest with _ | ⟨c, r⟩
    · rfl
    · simp [List.takeWhile_cons, hs c rfl]
  have hds : srest.dropWhile pyIsSpace = srest :=
    dropWhile_eq_self_of_head pyIsSpace srest hs
  rw [show (c0 :: n') ++ '.' :: ' ' :: srest = c0 :: (n' ++ '.' :: ' ' :: srest)
      from rfl]
  have h1 : (c0 :: (n' ++ '.' :: ' ' :: srest)).span pyIsSpace
      = ([], c0 :: (n' ++ '.' :: ' ' :: srest)) := by
    rw [List.span_eq_take_drop]
    simp [List.takeWhile_cons, List.dropWhile_cons, hc0s]
  have h2 : (c0 :: (n' ++ '.' :: ' ' :: srest)).span (fun c => c.isDigit)
      = (c0 :: n', '.' :: ' ' :: srest) := by
    rw [List.span_eq_take_drop]
    rw [show c0 :: (n' ++ '.' :: ' ' :: srest) = (c0 :: n') ++ '.' :: ' ' :: srest
        from rfl]
    rw [takeWhile_append_all _ (c0 :: n') _ hd,
      dropWhile_append_all _ (c0 :: n') _ hd]
    simp [List.takeWhile_cons, List.dropWhile_cons, hdotd]
  have h3 : ('.' :: ' ' :: srest).span pyIsSpace = ([], '.' :: ' ' :: srest) := by
    rw [List.span_eq_take_drop]
    simp [List.takeWhile_cons, List.dropWhile_cons, hdots]
  have h4 : (' ' :: srest).span pyIsSpace = ([' '], srest) := by
    rw [List.span_eq_take_drop]
    simp [List.takeWhile_cons, List.dropWhile_cons, hsp, hts, hds]
  unfold markerMatchAt
  rw [h1]
  dsimp only
  rw [if_pos (by simp [hc0])]
  rw [h2]
  dsimp only
  rw [h3]
  dsimp only
  rw [if_pos (by decide)]
  rw [h4]
  dsimp only
  rw [getLastD_append_singleton]

/-- Scanning a digit-free piece that does not end in whitespace consumes
exactly one fuel per character, accumulates its characters into the current
segment, and leaves a non-digit as the previous character. -/
theorem reSplit_scan_seg (cs : List Char) (rest : List Char) (f : Nat)
    (prev : Bool) (seg : List Char)
    (hdig : ∀ c ∈ cs, c.isDigit = false)
    (hlast : ∀ c, lastChar? cs = some c → pyIsSpace c = false) :
    reSplitDigits (cs.length + f) prev (cs ++ rest) seg
      = reSplitDigits f (if cs.isEmpty then prev else false) rest
          (cs.reverse ++ seg) := by
  induction cs generalizing prev seg with
  | nil => simp
  | cons c cr ih =>
      have hm : markerMatchAt prev (c :: (cr ++ rest)) = Option.none :=
        markerMatchAt_none_of_seg prev (c :: cr) rest (by simp) hdig hlast
      have hc : c.isDigit = false := hdig c (by simp)
      show reSplitDigits (cr.length + 1 + f) prev ((c :: cr) ++ rest) seg = _
      rw [Nat.add_right_comm cr.length 1 f]
      rw [show ((c :: cr) ++ rest) = c :: (cr ++ rest) from rfl]
      rw [reSplitDigits, hm]
      dsimp only
      rw [hc]
      rw [ih false (c :: seg) (fun x hx => hdig x (by simp [hx]))
        (lastChar?_tail_pred (fun x => pyIsSpace x = false) c cr hlast)]
      rcases cr with _ | ⟨b, r⟩ <;> simp

theorem string_mk_data (s : String) : String.mk s.data = s := rfl

theorem markerJoin_cons_data (n s : String) (rest : List (String × String)) :
    (markerJoin ((n, s) :: rest)).data
      = n.data ++ '.' :: ' ' :: (s.data ++ sepTail rest) := by
  cases rest with
  | nil =>
      show (n ++ ". " ++ s ++ "").data = _
      simp [String.data_append, sepTail]
  | cons q r =>
      obtain ⟨n2, s2⟩ := q
      show (n ++ ". " ++ s ++ (" " ++ markerJoin ((n2, s2) :: r))).data = _
      simp [String.data_append, sepTail]

theorem head?_append_of_ne_nil (l1 l2 : List Char) (h : l1 ≠ []) :
    (l1 ++ l2).head? = l1.head? := by
  cases l1 with
  | nil => exact absurd rfl h
  | cons c r => rfl

theorem markerMatchAt_nil (prev : Bool) : markerMatchAt prev [] = Option.none := rfl

theorem reSplitDigits_succ_nil (fuel : Nat) (prev : Bool) (seg : List Char) :
    reSplitDigits (fuel + 1) prev [] seg = [String.mk seg.reverse] := rfl

theorem reSplitDigits_succ_eq (fuel : Nat) (prev : Bool) (cs seg : List Char) :
    reSplitDigits (fuel + 1) prev cs seg
      = (match markerMatchAt prev cs with
        | some (ds, rest2, lastC) =>
            String.mk seg.reverse :: String.mk ds
              :: reSplitDigits fuel lastC.isDigit rest2 []
        | Option.none =>
          match cs with
          | [] => [String.mk seg.reverse]
          | c :: rest3 => reSplitDigits fuel c.isDigit rest3 (c :: seg)) := rfl

theorem reSplitDigits_succ_match (fuel : Nat) (prev : Bool) (cs seg : List Char)
    (ds rest2 : List Char) (lastC : Char)
    (h : markerMatchAt prev cs = some (ds, rest2, lastC)) :
    reSplitDigits (fuel + 1) prev cs seg
      = String.mk seg.reverse :: String.mk ds
          :: reSplitDigits fuel lastC.isDigit rest2 [] := by
  rw [reSplitDigits_succ_eq, h]

/-- After a marker match, the splitter scans the step text, and at the
following separator (or the end of input) emits it as one piece; the
remaining markers and steps follow the same way. This is the heart of the
"text between consecutive markers becomes one bullet" behavior. -/
theorem reSplit_seg_then (rest : List (String × String)) (s : String) (f : Nat)
    (hs : goodSeg s)
    (hm : ∀ p ∈ rest, goodMarker p.1) (hsr : ∀ p ∈ rest, goodSeg p.2) :
    reSplitDigits (s.data.length + scanFuel rest + f) false
        (s.data ++ sepTail rest) []
      = s :: markerParts rest := by
  obtain ⟨hne, hchars, hhead, hlastc⟩ := hs
  induction rest generalizing s f with
  | nil =>
      simp only [scanFuel, sepTail]
      rw [Nat.add_assoc]
      rw [reSplit_scan_seg s.data [] (1 + f) false []
        (fun c hc => (hchars c hc).1) hlastc]
      rw [Nat.add_comm 1 f, reSplitDigits, markerMatchAt_nil]
      simp [markerParts, string_mk_data]
  | cons p r2 ih =>
      obtain ⟨n2, s2⟩ := p
      have hn2 := hm (n2, s2) (by simp)
      have hs2 := hsr (n2, s2) (by simp)
      simp only [scanFuel, sepTail]
      rw [show s.data.length + (1 + s2.data.length + scanFuel r2) + f
            = s.data.length + (1 + s2.data.length + scanFuel r2 + f) from by omega]
      rw [reSplit_scan_seg s.data (' ' :: (markerJoin ((n2, s2) :: r2)).data)
        (1 + s2.data.length + scanFuel r2 + f) false []
        (fun c hc => (hchars c hc).1) hlastc]
      rw [show 1 + s2.data.length + scanFuel r2 + f
            = (s2.data.length + scanFuel r2 + f) + 1 from by omega]
      rw [reSplitDigits]
      rw [markerJoin_cons_data]
      rw [markerMatchAt_sep _ n2.data (s2.data ++ _) hn2.1 hn2.2
        (fun c hc => by
          rw [head?_append_of_ne_nil _ _ hs2.1] at hc
          exact hs2.2.2.1 c hc)]
      dsimp only
      rw [show (' ' : Char).isDigit = false from by decide]
      rw [ih s2 f (fun q hq => hm q (by simp [hq]))
        (fun q hq => hsr q (by simp [hq])) hs2.1 hs2.2.1 hs2.2.2.1 hs2.2.2.2]
      simp [markerParts, string_mk_data]

/- ============================================================
   Piece-loop lemmas for the segmentation proof
   ============================================================ -/

theorem head?_mem (l : List Char) (c : Char) (h : l.head? = some c) : c ∈ l := by
  cases l with
  | nil => cases h
  | cons a r =>
      simp only [List.head?_cons, Option.some.injEq] at h
      simp [h]

theorem string_isEmpty_false (s : String) (h : s.data ≠ []) :
    s.isEmpty = false := by
  rcases hx : s.isEmpty with _ | _
  · rfl
  · exact absurd (by rw [(String.isEmpty_iff s).mp hx]) h

theorem pyStrip_marker (n : String) (h : goodMarker n) : pyStrip n = n := by
  unfold pyStrip
  rw [stripWith_eq_self pyIsSpace n.data
    (fun c hc => (digit_char_facts c (h.2 c (head?_mem _ c hc))).1)
    (fun c hc => (digit_char_facts c (h.2 c (lastChar?_mem _ c hc))).1)]

theorem pyStrip_seg (s : String) (h : goodSeg s) : pyStrip s = s := by
  unfold pyStrip
  rw [stripWith_eq_self pyIsSpace s.data h.2.2.1 h.2.2.2]

theorem space_append_data (s : String) : (" " ++ s).data = ' ' :: s.data := rfl

theorem pyStrip_space_seg (s : String) (h : goodSeg s) : pyStrip (" " ++ s) = s := by
  unfold pyStrip
  rw [space_append_data]
  unfold stripWith
  rw [show List.dropWhile pyIsSpace (' ' :: s.data)
        = List.dropWhile pyIsSpace s.data from by
      rw [List.dropWhile_cons]
      simp [show pyIsSpace ' ' = true from by decide]]
  rw [dropWhile_eq_self_of_head pyIsSpace s.data h.2.2.1]
  rw [dropWhile_eq_self_of_head pyIsSpace s.data.reverse
    (fun c hc => h.2.2.2 c (by rwa [head?_reverse_eq_lastChar?] at hc))]
  rw [List.reverse_reverse]

theorem pyIsDigitStr_marker (n : String) (h : goodMarker n) :
    pyIsDigitStr n.data = true := by
  unfold pyIsDigitStr
  rcases hx : n.data with _ | ⟨c, r⟩
  · exact absurd hx h.1
  · simp only [List.isEmpty_cons, Bool.not_false, Bool.true_and, List.all_eq_true]
    intro x hxm
    exact h.2 x (by rw [hx]; exact hxm)

theorem pyIsDigitStr_seg (s : String) (h : goodSeg s) :
    pyIsDigitStr s.data = false := by
  unfold pyIsDigitStr
  rcases hx : s.data with _ | ⟨c, r⟩
  · exact absurd hx h.1
  · have hc : c.isDigit = false := (h.2.1 c (by rw [hx]; simp)).1
    simp [List.all_cons, hc]

theorem stepFold_marker (acc : List String × String) (n : String)
    (h : goodMarker n) :
    stepFold acc n
      = (if acc.2.isEmpty then acc.1 else acc.1 ++ [pyStrip acc.2], "") := by
  unfold stepFold
  rw [pyStrip_marker n h]
  rw [if_neg (by simp [string_isEmpty_false n h.1])]
  rw [if_pos (pyIsDigitStr_marker n h)]

theorem stepFold_seg (acc : List String × String) (s : String)
    (h : goodSeg s) :
    stepFold acc s = (acc.1, acc.2 ++ " " ++ s) := by
  unfold stepFold
  rw [pyStrip_seg s h]
  rw [if_neg (by simp [string_isEmpty_false s h.1])]
  rw [if_neg (by simp [pyIsDigitStr_seg s h])]

theorem string_empty_append_space (s : String) : ("" ++ " ") ++ s = " " ++ s := rfl

theorem space_append_isEmpty (s : String) : (" " ++ s).isEmpty = false :=
  string_isEmpty_false _ (by rw [space_append_data]; simp)

theorem foldl_stepFold_markerParts (l : List (String × String))
    (st : List String × String) (hl : l ≠ [])
    (hm : ∀ p ∈ l, goodMarker p.1) (hsr : ∀ p ∈ l, goodSeg p.2) :
    (if ((markerParts l).foldl stepFold st).2.isEmpty
     then ((markerParts l).foldl stepFold st).1
     else ((markerParts l).foldl stepFold st).1
        ++ [pyStrip ((markerParts l).foldl stepFold st).2])
    = (if st.2.isEmpty then st.1 else st.1 ++ [pyStrip st.2]) ++ l.map (·.2) := by
  induction l generalizing st with
  | nil => exact absurd rfl hl
  | cons p r ih =>
      obtain ⟨n, s⟩ := p
      have hn := hm (n, s) (by simp)
      have hs := hsr (n, s) (by simp)
      simp only [markerParts, List.foldl_cons]
      rw [stepFold_marker st n hn, stepFold_seg _ s hs]
      rcases r with _ | ⟨q, r2⟩
      · simp only [markerParts, List.foldl_nil]
        rw [string_empty_append_space]
        rw [show (" " ++ s).isEmpty = false from space_append_isEmpty s]
        rw [pyStrip_space_seg s hs]
        simp
      · rw [string_empty_append_space]
        rw [ih ((if st.2.isEmpty then st.1 else st.1 ++ [pyStrip st.2], "").1,
            " " ++ s) (by simp)
          (fun x hx => hm x (by simp [hx])) (fun x hx => hsr x (by simp [hx]))]
        rw [show (" " ++ s).isEmpty = false from space_append_isEmpty s]
        rw [pyStrip_space_seg s hs]
        simp

theorem collectSteps_markerParts (l : List (String × String)) (hl : l ≠ [])
    (hm : ∀ p ∈ l, goodMarker p.1) (hsr : ∀ p ∈ l, goodSeg p.2) :
    collectSteps ("" :: markerParts l) = l.map (·.2) := by
  unfold collectSteps
  simp only [List.foldl_cons]
  rw [show stepFold ([], "") "" = ([], "") from rfl]
  have h := foldl_stepFold_markerParts l ([], "") hl hm hsr
  simpa using h

/- ============================================================
   Assembly of the segmentation theorem
   ============================================================ -/

theorem markerJoin_data_ne_nil (l : List (String × String)) (hl : l ≠ [])
    (hm : ∀ p ∈ l, goodMarker p.1) : (markerJoin l).data ≠ [] := by
  rcases l with _ | ⟨⟨n, s⟩, rest⟩
  · exact absurd rfl hl
  · rw [markerJoin_cons_data]
    have hn := (hm (n, s) (by simp)).1
    rcases hx : n.data with _ | ⟨c, r⟩
    · exact absurd hx hn
    · simp [hx]

theorem markerJoin_head? (n s : String) (rest : List (String × String))
    (hn : n.data ≠ []) :
    (markerJoin ((n, s) :: rest)).data.head? = n.data.head? := by
  rw [markerJoin_cons_data]
  exact head?_append_of_ne_nil _ _ hn

theorem markerJoin_chars (P : Char → Prop) (l : List (String × String))
    (hm : ∀ p ∈ l, ∀ c ∈ (p.1 : String).data, P c)
    (hsr : ∀ p ∈ l, ∀ c ∈ (p.2 : String).data, P c)
    (hdot : P '.') (hspace : P ' ') :
    ∀ c ∈ (markerJoin l).data, P c := by
  induction l with
  | nil => intro c hc; cases hc
  | cons p rest ih =>
      obtain ⟨n, s⟩ := p
      rw [markerJoin_cons_data]
      intro c hc
      simp only [List.mem_append, List.mem_cons] at hc
      rcases hc with hc | hc | hc | (hc | hc)
      · exact hm (n, s) (by simp) c hc
      · subst hc; exact hdot
      · subst hc; exact hspace
      · exact hsr (n, s) (by simp) c hc
      · rcases rest with _ | ⟨q, r2⟩
        · cases hc
        · obtain ⟨n2, s2⟩ := q
          simp only [sepTail, List.mem_cons] at hc
          rcases hc with hc | hc
          · subst hc; exact hspace
          · exact ih (fun x hx => hm x (by simp [hx]))
              (fun x hx => hsr x (by simp [hx])) c hc

theorem markerJoin_lastChar (l : List (String × String)) (hl : l ≠ [])
    (hm : ∀ p ∈ l, goodMarker p.1) (hsr : ∀ p ∈ l, goodSeg p.2) :
    ∀ c, lastChar? (markerJoin l).data = some c → pyIsSpace c = false := by
  induction l with
  | nil => exact absurd rfl hl
  | cons p rest ih =>
      obtain ⟨n, s⟩ := p
      have hs := hsr (n, s) (by simp)
      rw [markerJoin_cons_data]
      intro c hc
      rcases rest with _ | ⟨q, r2⟩
      · simp only [sepTail, List.append_nil] at hc
        rw [lastChar?_append_right n.data _ (by simp)] at hc
        rw [lastChar?_cons_cons] at hc
        rcases hx : s.data with _ | ⟨c2, r3⟩
        · exact absurd hx hs.1
        · rw [hx, lastChar?_cons_cons] at hc
          exact hs.2.2.2 c (by rw [hx]; exact hc)
      · have hmj : (markerJoin (q :: r2)).data ≠ [] :=
          markerJoin_data_ne_nil (q :: r2) (by simp)
            (fun x hx => hm x (by simp [hx]))
        obtain ⟨n2, s2⟩ := q
        simp only [sepTail] at hc
        rw [lastChar?_append_right n.data _ (by simp)] at hc
        rw [lastChar?_cons_cons] at hc
        rw [show (' ' :: (s.data ++ ' ' :: (markerJoin ((n2, s2) :: r2)).data))
              = (' ' :: s.data ++ [' ']) ++ (markerJoin ((n2, s2) :: r2)).data
            from by simp] at hc
        rw [lastChar?_append_right _ _ hmj] at hc
        exact ih (by simp) (fun x hx => hm x (by simp [hx]))
          (fun x hx => hsr x (by simp [hx])) c hc

theorem scanFuel_le (l : List (String × String)) :
    scanFuel l ≤ (markerJoin l).data.length + 1 := by
  induction l with
  | nil => simp [scanFuel, markerJoin]
  | cons p rest ih =>
      obtain ⟨n, s⟩ := p
      rw [markerJoin_cons_data]
      simp only [scanFuel, List.length_append, List.length_cons]
      rcases rest with _ | ⟨q, r2⟩
      · simp [sepTail, scanFuel] at ih ⊢
        omega
      · obtain ⟨n2, s2⟩ := q
        simp only [sepTail, List.length_cons] at ih ⊢
        omega

theorem stripBotMarker_eq_self_of_digit (cs : List Char)
    (h : ∀ c, cs.head? = some c → c.isDigit = true) :
    stripBotMarker cs = cs := by
  rcases cs with _ | ⟨b, r⟩
  · rfl
  · have hb := h b rfl
    have hbneq : b ≠ 'b' := by
      intro heq
      rw [heq] at hb
      exact absurd hb (by decide)
    have hlow := (digit_char_facts b hb).2.2.2
    rcases r with _ | ⟨o, r2⟩
    · rfl
    · rcases r2 with _ | ⟨t, r3⟩
      · rfl
      · simp only [stripBotMarker]
        rw [if_neg]
        intro hcond
        simp only [Bool.and_eq_true, decide_eq_true_eq] at hcond
        exact hbneq (hlow ▸ hcond.1.1)

/-- The full split of numbered narrative text: a leading empty piece, then
the markers' digit runs interleaved with the step texts. -/
theorem reSplit_markerJoin (l : List (String × String)) (f : Nat) (hl : l ≠ [])
    (hm : ∀ p ∈ l, goodMarker p.1) (hsr : ∀ p ∈ l, goodSeg p.2) :
    reSplitDigits (scanFuel l + f) false (markerJoin l).data []
      = "" :: markerParts l := by
  rcases l with _ | ⟨⟨n, s⟩, rest⟩
  · exact absurd rfl hl
  · have hn := hm (n, s) (by simp)
    have hs := hsr (n, s) (by simp)
    simp only [scanFuel]
    rw [show 1 + s.data.length + scanFuel rest + f
          = (s.data.length + scanFuel rest + f) + 1 from by omega]
    rw [markerJoin_cons_data]
    rw [reSplitDigits_succ_match _ _ _ _ _ _ _
      (markerMatchAt_start n.data (s.data ++ sepTail rest) hn.1 hn.2
        (fun c hc => by
          rw [head?_append_of_ne_nil _ _ hs.1] at hc
          exact hs.2.2.1 c hc))]
    rw [show (' ' : Char).isDigit = false from by decide]
    rw [reSplit_seg_then rest s f hs (fun x hx => hm x (by simp [hx]))
      (fun x hx => hsr x (by simp [hx]))]
    simp [markerParts, string_mk_data]

/-- The general segmentation behavior of `smart_format_ai_output` on
numbered narrative text `n₁. s₁ n₂. s₂ ...`: for well-formed markers and
step texts, the output is exactly the ordered bullet list of the step
texts - the text between consecutive numeric markers becomes one bullet. -/
theorem smart_format_segmentation (l : List (String × String)) (hl : l ≠ [])
    (hm : ∀ p ∈ l, goodMarker p.1) (hsr : ∀ p ∈ l, goodSeg p.2) :
    smart_format_ai_output (.str (markerJoin l))
      = .ok ("<ul>" ++ String.join ((l.map (·.2)).map
          (fun st => "<li>" ++ st ++ "</li>")) ++ "</ul>") := by
  have hne : (markerJoin l).data ≠ [] := markerJoin_data_ne_nil l hl hm
  have hchars : ∀ c ∈ (markerJoin l).data, c ≠ '\n' ∧ c ≠ '•' := by
    refine markerJoin_chars _ l ?_ ?_ (by decide) (by decide)
    · intro p hp c hc
      have hd := (hm p hp).2 c hc
      exact ⟨(digit_char_facts c hd).2.1, (digit_char_facts c hd).2.2.1⟩
    · intro p hp c hc
      have := (hsr p hp).2.1 c hc
      exact ⟨this.2.1, this.2.2⟩
  have hclean : ((markerJoin l).data.map
        (fun c => if c = '\n' then ' ' else c)).filter (fun c => c ≠ '•')
      = (markerJoin l).data := by
    rw [map_eq_self_of_fixed _ _
      (fun c hc => by rw [if_neg (hchars c hc).1])]
    rw [List.filter_eq_self.mpr
      (fun c hc => by simp [(hchars c hc).2])]
  have hheadDigit : ∀ c, (markerJoin l).data.head? = some c → c.isDigit = true := by
    rcases l with _ | ⟨⟨n, s⟩, rest⟩
    · exact absurd rfl hl
    · intro c hc
      rw [markerJoin_head? n s rest (hm (n, s) (by simp)).1] at hc
      exact (hm (n, s) (by simp)).2 c (head?_mem _ c hc)
  have hstrip : stripWith pyIsSpace (markerJoin l).data = (markerJoin l).data :=
    stripWith_eq_self pyIsSpace _
      (fun c hc => (digit_char_facts c (hheadDigit c hc)).1)
      (markerJoin_lastChar l hl hm hsr)
  have hbot : stripBotMarker (markerJoin l).data = (markerJoin l).data :=
    stripBotMarker_eq_self_of_digit _ hheadDigit
  have htruthy : pyTruthy (.str (markerJoin l)) = true := by
    simp [pyTruthy, string_isEmpty_false _ hne]
  have hfle := scanFuel_le l
  unfold smart_format_ai_output
  rw [if_neg (by simp [htruthy])]
  dsimp only
  rw [hclean, hstrip, hbot]
  rw [show (markerJoin l).data.length + 1
        = scanFuel l + ((markerJoin l).data.length + 1 - scanFuel l) from by omega]
  rw [reSplit_markerJoin l _ hl hm hsr]
  rw [collectSteps_markerParts l hl hm hsr]
  rw [if_neg (by
    simp only [List.isEmpty_eq_true, List.map_eq_nil_iff]
    exact hl)]

/- ============================================================
   Claim C7 - numbered-step segmentation
   ============================================================ -/

/-- Claim C7 - on narrative text with embedded numeric step markers,
`smart_format_ai_output` cuts the text at each marker (a digit run
optionally followed by `.`, `-`, or `)`), the text between consecutive
markers becoming one bullet: for every nonempty list of well-formed
marker/step pairs, formatting the joined narrative emits exactly the step
texts as bullets, in order; moreover the spec's instance gives exactly the
bullets "Restart the router." and "Check cables." in order, and an instance
exercising all three marker punctuation forms segments the same way. -/
theorem smart_format_numbered_steps :
    (∀ (l : List (String × String)), l ≠ [] →
      (∀ p ∈ l, goodMarker p.1) → (∀ p ∈ l, goodSeg p.2) →
      smart_format_ai_output (.str (markerJoin l))
        = .ok ("<ul>" ++ String.join ((l.map (·.2)).map
            (fun st => "<li>" ++ st ++ "</li>")) ++ "</ul>"))
  ∧ smart_format_ai_output (.str ("1. Restart the router. 2. Check cables."))
      = .ok ("<ul><li>Restart the router.</li><li>Check cables.</li></ul>")
  ∧ smart_format_ai_output (.str ("1) First step 2- Second step 3. Third step"))
      = .ok ("<ul><li>First step</li><li>Second step</li><li>Third step</li></ul>") :=
  ⟨fun l hl hm hsr => smart_format_segmentation l hl hm hsr, rfl, rfl⟩

/-- Witness for claim C7: the segmentation theorem instantiated at the
spec's concrete step list, with every hypothesis discharged, reproduces the
bulleted output. -/
theorem smart_format_numbered_steps_witness :
    smart_format_ai_output (.str (markerJoin
        [("1", "Restart the router."), ("2", "Check cables.")]))
      = .ok ("<ul><li>Restart the router.</li><li>Check cables.</li></ul>") := by
  have hseg1 : goodSeg ("Restart the router.") :=
    ⟨by decide, by decide,
     fun c hc => by
       have hc2 : some ('R') = some c := hc
       cases Option.some.inj hc2; rfl,
     fun c hc => by
       have hc2 : some ('.') = some c := hc
       cases Option.some.inj hc2; rfl⟩
  have hseg2 : goodSeg ("Check cables.") :=
    ⟨by decide, by decide,
     fun c hc => by
       have hc2 : some ('C') = some c := hc
       cases Option.some.inj hc2; rfl,
     fun c hc => by
       have hc2 : some ('.') = some c := hc
       cases Option.some.inj hc2; rfl⟩
  have h := smart_format_numbered_steps.1
    [("1", "Restart the router."), ("2", "Check cables.")]
    (by decide)
    (by
      intro p hp
      simp only [List.mem_cons, List.not_mem_nil, or_false] at hp
      rcases hp with rfl | rfl
      · exact ⟨by decide, by decide⟩
      · exact ⟨by decide, by decide⟩)
    (by
      intro p hp
      simp only [List.mem_cons, List.not_mem_nil, or_false] at hp
      rcases hp with rfl | rfl
      · exact hseg1
      · exact hseg2)
  exact h.trans (by rfl)

/- ============================================================
   Claims C8/C9 - encoded list literals and id stripping
   ============================================================ -/

/-- Claim C8 (amended) - the admin panel's own `smart_format_ai_output` (the
variant its call sites use, shadowing the utils import) implements the
encoded-list-literal branch: a string whose trimmed form starts with `[` and
ends with `]` is parsed as a literal list, each element becoming one bullet,
with a parse failure silently falling through to the newline-splitting
fallback; on `'["x", "y"]'` it yields exactly the bullets `x` and `y`. The
utils variant has no such branch and emits the raw literal as a single
bullet (see the accompanying counterexample). -/
theorem admin_smart_format_list_literal :
    (∀ s l, strStartsWithChar (pyStrip s) '[' = true →
        strEndsWithChar (pyStrip s) ']' = true →
        pyTruthy (.str s) = true →
        ast_literal_eval (pyStrip s) = some (.list l) →
        AdminApp.smart_format_ai_output (.str s)
          = "<ul>" ++ String.join ((l.toList).map
              (fun item => "<li>" ++ pyStrip (pyStr item) ++ "</li>")) ++ "</ul>")
  ∧ AdminApp.smart_format_ai_output (.str ("[\"x\", \"y\"]"))
      = "<ul><li>x</li><li>y</li></ul>"
  ∧ (∀ s, pyTruthy (.str s) = true →
        ast_literal_eval (pyStrip s) = Option.none →
        AdminApp.smart_format_ai_output (.str s)
          = AdminApp.lineBullets (pyStrip s)) := by
  refine ⟨?_, by rfl, ?_⟩
  · intro s l h1 h2 ht hast
    unfold AdminApp.smart_format_ai_output
    rw [if_neg (by simp [ht])]
    dsimp only
    rw [if_pos (by simp [h1, h2])]
    simp only [hast]
  · intro s ht hast
    unfold AdminApp.smart_format_ai_output
    rw [if_neg (by simp [ht])]
    dsimp only
    split
    · simp only [hast]
    · rfl

/-- Counterexample for claim C8: the claim's own instance fails on the utils
variant of `smart_format_ai_output` (also cited as implementing the
reformatter), which performs no literal parsing: `'["x", "y"]'` comes back
as one bullet holding the raw literal, not the two bullets `x`, `y`. -/
theorem utils_smart_format_no_list_literal :
    smart_format_ai_output (.str ("[\"x\", \"y\"]"))
      = .ok ("<ul><li>[\"x\", \"y\"]</li></ul>")
  ∧ smart_format_ai_output (.str ("[\"x\", \"y\"]"))
      ≠ .ok ("<ul><li>x</li><li>y</li></ul>") :=
  ⟨rfl, fun h => absurd (Except.ok.inj h) (by decide)⟩

/-- Witness for claim C8, at the literal `'["x", "y"]'` and at the
non-literal bracketed string `"[broken"` (whose parse failure falls through
to line splitting). -/
theorem admin_smart_format_list_literal_witness :
    AdminApp.smart_format_ai_output (.str ("[\"x\", \"y\"]"))
      = "<ul>" ++ String.join
          (((PyList.cons (.str ("x")) (.cons (.str ("y")) .nil)).toList).map
            (fun item => "<li>" ++ pyStrip (pyStr item) ++ "</li>")) ++ "</ul>"
  ∧ AdminApp.smart_format_ai_output (.str ("[broken"))
      = AdminApp.lineBullets (pyStrip ("[broken")) :=
  ⟨admin_smart_format_list_literal.1 ("[\"x\", \"y\"]")
      (PyList.cons (.str ("x")) (.cons (.str ("y")) .nil))
      (by rfl) (by rfl) (by rfl) (by rfl),
   admin_smart_format_list_literal.2.2 ("[broken") (by rfl) (by rfl)⟩

/-- Claim C9 (amended) - no single reformatter both strips the role marker
and strips bracketed identifiers. `clean_and_format_ai_output` keeps only
the text after the last `]`, which on the cited example removes both the
`Bot:` marker and the bracketed id at once and yields exactly the single
fragment "Try again later." (as a paragraph); `smart_format_ai_output`
strips a leading case-insensitive `Bot:` marker but leaves bracketed
identifiers in place, where its digit segmentation shreds them into noise
bullets (see the accompanying counterexample). -/
theorem clean_format_strips_bracketed_id :
    clean_and_format_ai_output
        (.str ("Bot: [6f2afd46-2db7-4a11-9f1a-000000000000] Try again later."))
      = .ok ("<p>Try again later.</p>")
  ∧ smart_format_ai_output (.str ("Bot: hello there"))
      = .ok ("<ul><li>hello there</li></ul>") :=
  ⟨rfl, rfl⟩

/-- Counterexample for claim C9: on the claim's own instance,
`smart_format_ai_output` (cited as stripping the bracketed id) does not
emit one bullet "Try again later." - its digit segmentation shreds the
embedded UUID into eight fragments. -/
theorem smart_format_shreds_bracketed_id :
    smart_format_ai_output
        (.str ("Bot: [6f2afd46-2db7-4a11-9f1a-000000000000] Try again later."))
      = .ok ("<ul><li>[</li><li>f</li><li>afd</li><li>db</li><li>a</li><li>f</li><li>a-</li><li>] Try again later.</li></ul>")
  ∧ smart_format_ai_output
        (.str ("Bot: [6f2afd46-2db7-4a11-9f1a-000000000000] Try again later."))
      ≠ .ok ("<ul><li>Try again later.</li></ul>")
  ∧ smart_format_ai_output
        (.str ("Bot: [6f2afd46-2db7-4a11-9f1a-000000000000] Try again later."))
      ≠ .ok ("<p>Try again later.</p>") :=
  ⟨rfl, fun h => absurd (Except.ok.inj h) (by decide),
   fun h => absurd (Except.ok.inj h) (by decide)⟩

end ITSM
